import Mathlib

/-!
serialfd: a floppy drive served over a serial line.

A shallow embedding of `src/serialfd.c` and the properties of its command
loop: address translation, sector transfer, geometry resolution and the
failure policy.

Modelling conventions.

* A C `int` is an `Int`; every arithmetic operator of the source is followed
  by `wrap32`, the reduction to 32-bit two's complement.
* An `unsigned char` is a `Fin 256`, a `uint16_t` a `Fin 65536`.
* The serial line is scripted: `linkIn` lists the outcome of each future
  `read(tty_fd, ..)` call, `linkWr` the outcome of each future
  `write(tty_fd, ..)` call, and `linkOut` records every byte handed to
  `write(tty_fd, ..)` together with the outcome of that call.
* An image opened with `fopen(.., "r+b")` is its byte contents and a file
  position.  `fseek` to a negative offset fails, any other offset is accepted;
  `fgetc` at or past the end yields `EOF`; `fputc` past the end extends the
  file, filling the gap with zero bytes.
* The host is little-endian: `&c` addresses the least significant byte of the
  `int c`, and the two bytes of the boot-sector field are read low byte first.
  Only that byte of `c` is ever observed, so the state keeps it alone.
-/

namespace Serialfd

/-! ## Machine types and constants -/

/-- An `unsigned char`. -/
abbrev Byte := Fin 256

/-- A `uint16_t`. -/
abbrev Word := Fin 65536

def SECTOR_SIZE : Int := 512

def HEADS_PER_CYLINDER_DEFAULT : Int := 2

def OPERATION_READ_DISK_SECTORS : Nat := 0x02

def OPERATION_WRITE_DISK_SECTORS : Nat := 0x03

def EXIT_SUCCESS : Int := 0

def EXIT_FAILURE : Int := 1

/-- The value a 32-bit two's complement `int` holds for the integer `x`. -/
def wrap32 (x : Int) : Int := (x + 2147483648) % 4294967296 - 2147483648

/-- Conversion of an `int` to `uint16_t` (assignment to `floppy_a_spt`). -/
def toWord (x : Int) : Word := ⟨(x % 65536).toNat, by omega⟩

/-- The array `unsigned char registers[6]`, by register name. -/
structure Registers where
  al : Byte
  ah : Byte
  cl : Byte
  ch : Byte
  dl : Byte
  dh : Byte
deriving DecidableEq, Repr

/-! ## Address translation (lines 243-246, 273) -/

/-- Line 243: `cylinder = ((registers[CL] & 0xc0) << 2) + registers[CH]`. -/
def cylinderOf (r : Registers) : Int :=
  wrap32 ((((r.cl.val &&& 0xc0) <<< 2 : Nat) : Int) + (r.ch.val : Int))

/-- Line 245: `sector = registers[CL] & 0x3f`. -/
def sectorOf (r : Registers) : Int := ((r.cl.val &&& 0x3f : Nat) : Int)

/-- Line 246: `lba = ((cylinder * hpc + registers[DH]) * spt) + sector - 1`. -/
def lbaOf (hpc spt : Int) (r : Registers) : Int :=
  wrap32 (wrap32 (wrap32 (wrap32 (wrap32 (cylinderOf r * hpc) + (r.dh.val : Int)) * spt)
    + sectorOf r) - 1)

/-- Line 273: the argument `lba * SECTOR_SIZE` of `fseek`. -/
def offsetOf (hpc spt : Int) (r : Registers) : Int :=
  wrap32 (lbaOf hpc spt r * SECTOR_SIZE)

/-- Lines 285 and 305: the loop bound `SECTOR_SIZE * registers[AL]`. -/
def transferLength (r : Registers) : Int := wrap32 (SECTOR_SIZE * (r.al.val : Int))

/-! ## The address formula of the specification, over the integers -/

/-- Cylinder of the specification: `((cl & 0xC0) << 2) | ch`. -/
def specCylinder (r : Registers) : Int :=
  ((((r.cl.val &&& 0xC0) <<< 2) ||| r.ch.val : Nat) : Int)

/-- Sector of the specification: `cl & 0x3F`. -/
def specSector (r : Registers) : Int := ((r.cl.val &&& 0x3F : Nat) : Int)

/-- Block address of the specification, with no bound on the integers. -/
def specLba (hpc spt : Int) (r : Registers) : Int :=
  (specCylinder r * hpc + (r.dh.val : Int)) * spt + specSector r - 1

/-- Byte offset of the specification: `lba * 512`. -/
def specOffset (hpc spt : Int) (r : Registers) : Int := specLba hpc spt r * 512

/-- The range of a 32-bit `int`. -/
def InInt (x : Int) : Prop := -2147483648 ≤ x ∧ x < 2147483648

instance (x : Int) : Decidable (InInt x) := by unfold InInt; infer_instance

/-- Every intermediate value of the specification's formula fits an `int`. -/
def NoOverflow (hpc spt : Int) (r : Registers) : Prop :=
  InInt (specCylinder r * hpc) ∧
  InInt (specCylinder r * hpc + (r.dh.val : Int)) ∧
  InInt ((specCylinder r * hpc + (r.dh.val : Int)) * spt) ∧
  InInt ((specCylinder r * hpc + (r.dh.val : Int)) * spt + specSector r) ∧
  InInt (specLba hpc spt r) ∧
  InInt (specOffset hpc spt r)

instance (hpc spt : Int) (r : Registers) : Decidable (NoOverflow hpc spt r) := by
  unfold NoOverflow; infer_instance

/-! ## Image files -/

/-- A stream on an image opened with `fopen(.., "r+b")`. -/
structure FILE where
  data : List Byte
  pos : Nat
deriving DecidableEq, Repr

/-- The call `fseek(fh, offset, SEEK_SET)`; `none` is the return value `-1`. -/
def fseek (fh : FILE) (offset : Int) : Option FILE :=
  if offset < 0 then none else some { fh with pos := offset.toNat }

/-- The call `fgetc(fh)`; `none` is `EOF`. -/
def fgetc (fh : FILE) : Option Byte × FILE :=
  match fh.data.get? fh.pos with
  | some b => (some b, { fh with pos := fh.pos + 1 })
  | none => (none, fh)

/-- The call `fputc(c, fh)`: overwrite in place, or extend the file. -/
def fputc (c : Byte) (fh : FILE) : FILE :=
  { data := (fh.data ++ List.replicate (fh.pos - fh.data.length) 0).take fh.pos
              ++ c :: fh.data.drop (fh.pos + 1)
    pos := fh.pos + 1 }

/-- The call `fread(&spt, sizeof(uint16_t), 1, fh)`; `none` is a return value
other than `1`. -/
def fread_u16 (fh : FILE) : Option Word × FILE :=
  match fh.data.get? fh.pos, fh.data.get? (fh.pos + 1) with
  | some lo, some hi =>
      (some (toWord ((lo.val : Int) + 256 * (hi.val : Int))), { fh with pos := fh.pos + 2 })
  | some _, none => (none, { fh with pos := fh.pos + 1 })
  | none, _ => (none, fh)

/-- Lines 26-42. -/
def get_sectors_per_track (fh : FILE) : Word × FILE :=
  let fh := (fseek fh 24).getD fh
  match fread_u16 fh with
  | (none, fh) => (0, fh)
  | (some spt, fh) => if spt = 9 ∨ spt = 18 then (spt, fh) else (0, fh)

/-! ## The session -/

/-- The variables of `main` that live across iterations of the command loop,
and the serial line. -/
structure Session where
  linkIn : List (Option Byte)
  linkWr : List Bool
  linkOut : List (Byte × Bool)
  floppy_a_fh : Option FILE
  floppy_b_fh : Option FILE
  floppy_a_spt : Word
  floppy_b_spt : Word
  hpc : Int
  c : Byte
deriving DecidableEq, Repr

/-- The drive a frame selects. -/
inductive Drive where
  | A
  | B
deriving DecidableEq, Repr

/-- The handle `fh` after lines 224-229. -/
def Session.fh (s : Session) : Drive → Option FILE
  | .A => s.floppy_a_fh
  | .B => s.floppy_b_fh

/-- The value `spt` after lines 224-229. -/
def Session.spt (s : Session) : Drive → Word
  | .A => s.floppy_a_spt
  | .B => s.floppy_b_spt

/-- An operation on `fh` acts on the stream of the selected drive. -/
def Session.setFh (s : Session) (d : Drive) (fh : FILE) : Session :=
  match d with
  | .A => { s with floppy_a_fh := some fh }
  | .B => { s with floppy_b_fh := some fh }

/-- The bytes handed to `write(tty_fd, ..)` so far, in order. -/
def Session.written (s : Session) : List Byte := s.linkOut.map Prod.fst

/-- The bytes the serial line accepted so far, in order. -/
def Session.delivered (s : Session) : List Byte :=
  (s.linkOut.filter Prod.snd).map Prod.fst

/-- The diagnostics of `main`, one per `fprintf` that precedes an exit. -/
inductive Fatal where
  | noTty
  | noImage
  | invalidHpc
  | ttyOpen
  | ttyAttr
  | ttyIoctl
  | fopenA
  | invalidSptA
  | fopenB
  | invalidSptB
  | linkRead
  | invalidDrive
  | seek
  | unhandledOp
deriving DecidableEq, Repr

/-- The error kinds of the specification, and `BackingOpenError` for a failed
`fopen`, which the specification leaves unnamed. -/
inductive ErrorKind where
  | StartupConfigError
  | InvalidGeometry
  | LinkOpenError
  | LinkConfigError
  | BackingOpenError
  | LinkReadError
  | LinkWriteError
  | InvalidDrive
  | SeekError
  | UnsupportedOperation
deriving DecidableEq, Repr

/-- The error kind each diagnostic stands for.  A head count of zero is a
`StartupConfigError`, as in the list of error kinds of the specification; no
diagnostic of the source stands for `LinkWriteError`. -/
def Fatal.kind : Fatal → ErrorKind
  | .noTty => .StartupConfigError
  | .noImage => .StartupConfigError
  | .invalidHpc => .StartupConfigError
  | .ttyOpen => .LinkOpenError
  | .ttyAttr => .LinkConfigError
  | .ttyIoctl => .LinkConfigError
  | .fopenA => .BackingOpenError
  | .invalidSptA => .InvalidGeometry
  | .fopenB => .BackingOpenError
  | .invalidSptB => .InvalidGeometry
  | .linkRead => .LinkReadError
  | .invalidDrive => .InvalidDrive
  | .seek => .SeekError
  | .unhandledOp => .UnsupportedOperation

/-- What one pass through the body of `while (1)` leads to: the next pass, or
`goto main_end` with a diagnostic and the value of `result`. -/
inductive Step where
  | next (s : Session)
  | exit (e : Fatal) (result : Int) (s : Session)
deriving DecidableEq, Repr

/-! ## The serial line -/

/-- One `read(tty_fd, .., 1)`; `none` is a return value other than `1`. -/
def tty_read (s : Session) : Option Byte × Session :=
  match s.linkIn with
  | [] => (none, s)
  | ev :: rest => (ev, { s with linkIn := rest })

/-- One `write(tty_fd, &c, 1)`; the source ignores its return value. -/
def tty_write (s : Session) : Session :=
  match s.linkWr with
  | [] => { s with linkOut := s.linkOut ++ [(s.c, true)] }
  | ok :: rest => { s with linkWr := rest, linkOut := s.linkOut ++ [(s.c, ok)] }

/-- Lines 207-213: six checked reads into `registers`. -/
def read_registers (s : Session) : Option Registers × Session :=
  match tty_read s with
  | (none, s) => (none, s)
  | (some al, s) =>
  match tty_read s with
  | (none, s) => (none, s)
  | (some ah, s) =>
  match tty_read s with
  | (none, s) => (none, s)
  | (some cl, s) =>
  match tty_read s with
  | (none, s) => (none, s)
  | (some ch, s) =>
  match tty_read s with
  | (none, s) => (none, s)
  | (some dl, s) =>
  match tty_read s with
  | (none, s) => (none, s)
  | (some dh, s) => (some ⟨al, ah, cl, ch, dl, dh⟩, s)

/-- Lines 224-235: the drive `registers[DL]` names, if any. -/
def select_drive (r : Registers) : Option Drive :=
  if r.dl.val = 0x00 then some .A
  else if r.dl.val = 0x01 then some .B
  else none

/-! ## The command loop -/

/-- Lines 272-278: position the stream of a present drive; `none` is the
failure of `fseek`. -/
def position (d : Drive) (offset : Int) (s : Session) : Option Session :=
  match s.fh d with
  | some fh =>
    match fseek fh offset with
    | some fh => some (s.setFh d fh)
    | none => none
  | none => some s

/-- Lines 286-297: the body of the read loop. -/
def read_body (d : Drive) (s : Session) : Session :=
  let s :=
    match s.fh d with
    | some fh =>
      match fgetc fh with
      | (some b, fh) => { s.setFh d fh with c := b }
      | (none, fh) => { s.setFh d fh with c := 0xFF }
    | none => { s with c := 0xFF }
  tty_write s

/-- Lines 285-298: the read loop, `n` passes. -/
def read_sectors (d : Drive) : Nat → Session → Session
  | 0, s => s
  | n + 1, s => read_sectors d n (read_body d s)

/-- Lines 306-309: the body of the write loop.  The return value of `read` is
ignored; when the call fails `c` keeps its value. -/
def write_body (d : Drive) (s : Session) : Session :=
  let s :=
    match tty_read s with
    | (some b, s) => { s with c := b }
    | (none, s) => s
  match s.fh d with
  | some fh => s.setFh d (fputc s.c fh)
  | none => s

/-- Lines 305-316: the write loop, `n` passes. -/
def write_sectors (d : Drive) : Nat → Session → Session
  | 0, s => s
  | n + 1, s => write_sectors d n (write_body d s)

/-- Lines 317-319: `fflush(fh)`; the model holds no write buffer. -/
def flush (_d : Drive) (s : Session) : Session := s

/-- Lines 280-327: the transfer, once the stream is positioned. -/
def transfer (d : Drive) (r : Registers) (s : Session) : Step :=
  if r.ah.val = OPERATION_READ_DISK_SECTORS then
    .next (read_sectors d (transferLength r).toNat s)
  else if r.ah.val = OPERATION_WRITE_DISK_SECTORS then
    .next (flush d (write_sectors d (transferLength r).toNat s))
  else
    .exit .unhandledOp EXIT_FAILURE s

/-- Lines 207-327: one pass through the body of `while (1)`. -/
def dispatch (s : Session) : Step :=
  match read_registers s with
  | (none, s) => .exit .linkRead EXIT_FAILURE s
  | (some r, s) =>
    match select_drive r with
    | none => .exit .invalidDrive EXIT_FAILURE s
    | some d =>
      match position d (offsetOf s.hpc ((s.spt d).val : Int) r) s with
      | none => .exit .seek EXIT_FAILURE s
      | some s => transfer d r s

/-- Lines 206-328: the loop, cut after `fuel` passes. -/
def main_loop : Nat → Session → Step
  | 0, s => .next s
  | fuel + 1, s =>
    match dispatch s with
    | .next s => main_loop fuel s
    | .exit e result s => .exit e result s

/-! ## Start-up (lines 62-203) -/

/-- The options after `getopt`, and what the operating system answers to the
start-up calls.  For an image, `none` is an option not given, `some none` a
failed `fopen`, `some (some data)` an opened file with contents `data`. -/
structure Invocation where
  tty_device : Bool
  floppy_a_image : Option (Option (List Byte))
  floppy_b_image : Option (Option (List Byte))
  hpc : Int
  spt : Int
  open_ok : Bool
  tcsetattr_ok : Bool
  ioctl_ok : Bool
deriving DecidableEq, Repr

/-- The checks and calls of lines 120-161 all pass: a TTY and an image are
named, the head count is not zero, and the TTY is opened and configured. -/
def Invocation.reachesImages (inv : Invocation) : Prop :=
  inv.tty_device = true ∧
  ¬ (inv.floppy_a_image = none ∧ inv.floppy_b_image = none) ∧
  inv.hpc ≠ 0 ∧ inv.open_ok = true ∧ inv.tcsetattr_ok = true ∧ inv.ioctl_ok = true

instance (inv : Invocation) : Decidable inv.reachesImages := by
  unfold Invocation.reachesImages; infer_instance

/-- Lines 172-176: probe the image unless `-S` gave a nonzero value. -/
def resolve_spt (spt : Int) (fh : FILE) : Word × FILE :=
  if spt = 0 then get_sectors_per_track fh else (toWord spt, fh)

/-- Lines 64-80: the state before any option takes effect on a stream. -/
def initial (inv : Invocation) (linkIn : List (Option Byte)) (linkWr : List Bool) : Session :=
  { linkIn := linkIn, linkWr := linkWr, linkOut := []
    floppy_a_fh := none, floppy_b_fh := none
    floppy_a_spt := 0, floppy_b_spt := 0
    hpc := inv.hpc, c := 0xFF }

/-- Lines 164-182. -/
def open_a (inv : Invocation) (s : Session) : Step :=
  match inv.floppy_a_image with
  | none => .next s
  | some none => .exit .fopenA EXIT_FAILURE s
  | some (some data) =>
    let (spt, fh) := resolve_spt inv.spt ⟨data, 0⟩
    let s := { s with floppy_a_fh := some fh, floppy_a_spt := spt }
    if spt = 0 then .exit .invalidSptA EXIT_FAILURE s else .next s

/-- Lines 185-203. -/
def open_b (inv : Invocation) (s : Session) : Step :=
  match inv.floppy_b_image with
  | none => .next s
  | some none => .exit .fopenB EXIT_FAILURE s
  | some (some data) =>
    let (spt, fh) := resolve_spt inv.spt ⟨data, 0⟩
    let s := { s with floppy_b_fh := some fh, floppy_b_spt := spt }
    if spt = 0 then .exit .invalidSptB EXIT_FAILURE s else .next s

/-- Lines 120-203: everything before the command loop. -/
def startup (inv : Invocation) (linkIn : List (Option Byte)) (linkWr : List Bool) : Step :=
  let s := initial inv linkIn linkWr
  if inv.tty_device = false then .exit .noTty EXIT_FAILURE s
  else if inv.floppy_a_image = none ∧ inv.floppy_b_image = none then
    .exit .noImage EXIT_FAILURE s
  else if inv.hpc = 0 then .exit .invalidHpc EXIT_FAILURE s
  else if inv.open_ok = false then .exit .ttyOpen EXIT_FAILURE s
  else if inv.tcsetattr_ok = false then .exit .ttyAttr EXIT_FAILURE s
  else if inv.ioctl_ok = false then .exit .ttyIoctl EXIT_FAILURE s
  else
    match open_a inv s with
    | .exit e result s => .exit e result s
    | .next s => open_b inv s

/-- The program: start-up, then the command loop cut after `fuel` passes. -/
def main (inv : Invocation) (linkIn : List (Option Byte)) (linkWr : List Bool)
    (fuel : Nat) : Step :=
  match startup inv linkIn linkWr with
  | .exit e result s => .exit e result s
  | .next s => main_loop fuel s

/-- The bytes of a frame as six successful reads. -/
def frameEvents (r : Registers) : List (Option Byte) :=
  [some r.al, some r.ah, some r.cl, some r.ch, some r.dl, some r.dh]


/-! ## Concrete frames and sessions -/

/-- The read frame of the end-to-end scenario: one sector at cylinder 0,
head 0, sector 1 of drive A. -/
def firstSectorRead : Registers := ⟨1, 0x02, 0x01, 0x00, 0x00, 0x00⟩

/-- A read frame for the last address a frame can name: cylinder 1023,
head 255, sector 63 of drive A. -/
def lastAddressRead : Registers := ⟨0, 0x02, 0xFF, 0xFF, 0x00, 0xFF⟩

/-- A read frame for cylinder 1, head 0, sector 1 of drive A. -/
def cylinderOneRead : Registers := ⟨1, 0x02, 0x01, 0x01, 0x00, 0x00⟩

/-- A read frame for drive B: one sector at cylinder 0, head 0, sector 1. -/
def driveBRead : Registers := ⟨1, 0x02, 0x01, 0x00, 0x01, 0x00⟩

/-- A write frame for drive B: one sector at cylinder 0, head 0, sector 1. -/
def driveBWrite : Registers := ⟨1, 0x03, 0x01, 0x00, 0x01, 0x00⟩

/-- A frame with opcode `0x09` for cylinder 0, head 0, sector 1 of drive A. -/
def opcodeNine : Registers := ⟨1, 0x09, 0x01, 0x00, 0x00, 0x00⟩

/-- A frame with opcode `0x09` for cylinder 0, head 0, sector 0 of drive A. -/
def opcodeNineSectorZero : Registers := ⟨1, 0x09, 0x00, 0x00, 0x00, 0x00⟩

/-- A write frame for drive A: one sector at cylinder 0, head 0, sector 1. -/
def firstSectorWrite : Registers := ⟨1, 0x03, 0x01, 0x00, 0x00, 0x00⟩

/-- A one-sector image whose boot sector announces 18 sectors per track. -/
def bootImage : List Byte := List.replicate 24 0 ++ [18, 0] ++ List.replicate 486 0

/-- One sector of the byte `0xA5`. -/
def sectorPattern : List Byte := List.replicate 512 0xA5

/-- A three-byte image, too short to hold a boot sector. -/
def tinyImage : List Byte := [0xEB, 0x3C, 0x90]

/-- Options `-d TTY -a IMAGE` with every start-up call succeeding. -/
def invocationA (image : List Byte) (spt : Int) : Invocation :=
  { tty_device := true, floppy_a_image := some (some image), floppy_b_image := none
    hpc := HEADS_PER_CYLINDER_DEFAULT, spt := spt
    open_ok := true, tcsetattr_ok := true, ioctl_ok := true }

/-- Options `-d TTY -a IMAGE -S 18 -H 1000000`. -/
def invocationManyHeads : Invocation :=
  { invocationA tinyImage 18 with hpc := 1000000 }

/-- A running session with `image` in drive A and no drive B. -/
def sessionA (image : List Byte) (spt : Word) (linkIn : List (Option Byte)) : Session :=
  { linkIn := linkIn, linkWr := [], linkOut := []
    floppy_a_fh := some ⟨image, 0⟩, floppy_b_fh := none
    floppy_a_spt := spt, floppy_b_spt := 0
    hpc := HEADS_PER_CYLINDER_DEFAULT, c := 0xFF }

/-- The line during a one-sector write to drive A whose first data read
fails: the frame, the failed read, 511 bytes `0xA5`, then the next frame, a
read of the same sector. -/
def linkFailsInWrite : List (Option Byte) :=
  frameEvents firstSectorWrite ++ (none :: (List.replicate 511 0xA5).map some
    ++ frameEvents firstSectorRead)

/-- The session of `linkFailsInWrite`: a three-byte image in drive A. -/
def sessionFailsInWrite : Session := sessionA tinyImage 18 linkFailsInWrite

/-- A session whose first `write` on the line fails: a one-sector image in
drive A and a one-sector read frame followed by a second one. -/
def sessionFailsInRead : Session :=
  { sessionA bootImage 18 (frameEvents firstSectorRead ++ frameEvents firstSectorRead) with
    linkWr := [false] }

/-- The state of `sessionFailsInWrite` after the first pass of the write
loop, the one whose `read` fails: byte 0 of the image holds the `0xFF` that
`c` had. -/
def afterFailedRead : Session :=
  { linkIn := (List.replicate 511 0xA5).map some ++ frameEvents firstSectorRead
    linkWr := [], linkOut := []
    floppy_a_fh := some ⟨[0xFF, 0x3C, 0x90], 1⟩, floppy_b_fh := none
    floppy_a_spt := 18, floppy_b_spt := 0
    hpc := HEADS_PER_CYLINDER_DEFAULT, c := 0xFF }

/-- The state of `sessionFailsInRead` after the first pass of the read loop,
the one whose `write` fails: byte 0 of the image was handed to the line and
refused. -/
def afterFailedWrite : Session :=
  { linkIn := frameEvents firstSectorRead
    linkWr := [], linkOut := [(0, false)]
    floppy_a_fh := some ⟨bootImage, 1⟩, floppy_b_fh := none
    floppy_a_spt := 18, floppy_b_spt := 0
    hpc := HEADS_PER_CYLINDER_DEFAULT, c := 0 }

/-- The contents of an image after the bytes `p` are stored from position
`pos` on: a gap past the old end reads as zero, the bytes after remain. -/
def overwrite (data : List Byte) (pos : Nat) (p : List Byte) : List Byte :=
  (data ++ List.replicate (pos - data.length) 0).take pos ++ p ++ data.drop (pos + p.length)

/-! ## Arithmetic of the address translation -/

theorem wrap32_of_inInt {x : Int} (h : InInt x) : wrap32 x = x := by
  unfold InInt at h
  unfold wrap32
  omega

set_option maxRecDepth 100000 in
theorem cl_high_bits (cl : Byte) : (cl.val &&& 0xc0) <<< 2 = 256 * (cl.val / 64) := by
  revert cl; decide

set_option maxRecDepth 100000 in
theorem cl_low_bits (cl : Byte) : cl.val &&& 0x3f = cl.val % 64 := by
  revert cl; decide

theorem specCylinder_eq (r : Registers) :
    specCylinder r = 256 * ((r.cl.val / 64 : Nat) : Int) + (r.ch.val : Int) := by
  unfold specCylinder
  have h : (r.cl.val &&& 0xC0) <<< 2 ||| r.ch.val = 256 * (r.cl.val / 64) + r.ch.val := by
    have h2 := Nat.mul_add_lt_is_or (i := 8) (b := r.ch.val)
      (by have := r.ch.isLt; omega) (r.cl.val / 64)
    rw [cl_high_bits]
    simpa using h2.symm
  rw [h]; push_cast; rfl

theorem cylinderOf_eq (r : Registers) :
    cylinderOf r = 256 * ((r.cl.val / 64 : Nat) : Int) + (r.ch.val : Int) := by
  unfold cylinderOf
  rw [cl_high_bits]
  have h1 := r.cl.isLt
  have h2 := r.ch.isLt
  unfold wrap32
  push_cast
  omega

theorem cylinderOf_eq_spec (r : Registers) : cylinderOf r = specCylinder r := by
  rw [cylinderOf_eq, specCylinder_eq]

theorem cylinderOf_range (r : Registers) : 0 ≤ cylinderOf r ∧ cylinderOf r ≤ 1023 := by
  rw [cylinderOf_eq]
  have h1 := r.cl.isLt
  have h2 := r.ch.isLt
  omega

theorem sectorOf_eq (r : Registers) : sectorOf r = ((r.cl.val % 64 : Nat) : Int) := by
  unfold sectorOf
  rw [cl_low_bits]

theorem sectorOf_eq_spec (r : Registers) : sectorOf r = specSector r := rfl

theorem lbaOf_eq_spec {hpc spt : Int} {r : Registers} (h : NoOverflow hpc spt r) :
    lbaOf hpc spt r = specLba hpc spt r := by
  obtain ⟨h1, h2, h3, h4, h5, -⟩ := h
  unfold lbaOf
  rw [cylinderOf_eq_spec, sectorOf_eq_spec, wrap32_of_inInt h1, wrap32_of_inInt h2,
    wrap32_of_inInt h3, wrap32_of_inInt h4]
  exact wrap32_of_inInt h5

theorem offsetOf_eq_spec {hpc spt : Int} {r : Registers} (h : NoOverflow hpc spt r) :
    offsetOf hpc spt r = specOffset hpc spt r := by
  unfold offsetOf
  rw [lbaOf_eq_spec h]
  exact wrap32_of_inInt h.2.2.2.2.2

theorem transferLength_eq (r : Registers) : transferLength r = 512 * (r.al.val : Int) := by
  unfold transferLength SECTOR_SIZE wrap32
  have h := r.al.isLt
  omega

theorem transferLength_toNat (r : Registers) : (transferLength r).toNat = 512 * r.al.val := by
  rw [transferLength_eq]
  omega

/-! ## One pass of the loop on a complete frame -/

theorem read_registers_frame (s : Session) (r : Registers) (t : List (Option Byte))
    (hin : s.linkIn = frameEvents r ++ t) :
    read_registers s = (some r, { s with linkIn := t }) := by
  simp [read_registers, tty_read, hin, frameEvents]

theorem dispatch_frame (s : Session) (r : Registers) (t : List (Option Byte))
    (hin : s.linkIn = frameEvents r ++ t) :
    dispatch s =
      match select_drive r with
      | none => .exit .invalidDrive EXIT_FAILURE { s with linkIn := t }
      | some d =>
        match position d (offsetOf s.hpc ((s.spt d).val : Int) r) { s with linkIn := t } with
        | none => .exit .seek EXIT_FAILURE { s with linkIn := t }
        | some s1 => transfer d r s1 := by
  unfold dispatch
  rw [read_registers_frame s r t hin]
  dsimp only
  cases select_drive r with
  | none => rfl
  | some d => cases d <;> rfl


theorem position_present (d : Drive) (offset : Int) (s : Session) (fh : FILE)
    (h : s.fh d = some fh) :
    position d offset s = (fseek fh offset).map (s.setFh d) := by
  unfold position
  rw [h]
  dsimp only
  cases fseek fh offset <;> rfl

theorem position_absent (d : Drive) (offset : Int) (s : Session)
    (h : s.fh d = none) : position d offset s = some s := by
  unfold position
  rw [h]

theorem fh_linkIn (s : Session) (t : List (Option Byte)) (d : Drive) :
    ({ s with linkIn := t } : Session).fh d = s.fh d := by
  cases d <;> rfl

/-! ## The transfer loops on an absent drive -/

theorem fh_congr {s s1 : Session} (d : Drive) (ha : s1.floppy_a_fh = s.floppy_a_fh)
    (hb : s1.floppy_b_fh = s.floppy_b_fh) : s1.fh d = s.fh d := by
  cases d
  · exact ha
  · exact hb

theorem tty_write_fields (s : Session) :
    (tty_write s).linkIn = s.linkIn ∧
    (tty_write s).floppy_a_fh = s.floppy_a_fh ∧
    (tty_write s).floppy_b_fh = s.floppy_b_fh ∧
    (tty_write s).written = s.written ++ [s.c] := by
  unfold tty_write Session.written
  cases s.linkWr <;> simp

theorem read_body_absent (d : Drive) (s : Session) (h : s.fh d = none) :
    read_body d s = tty_write { s with c := 0xFF } := by
  unfold read_body
  rw [h]

theorem read_sectors_absent (d : Drive) (n : Nat) (s : Session) (h : s.fh d = none) :
    (read_sectors d n s).linkIn = s.linkIn ∧
    (read_sectors d n s).floppy_a_fh = s.floppy_a_fh ∧
    (read_sectors d n s).floppy_b_fh = s.floppy_b_fh ∧
    (read_sectors d n s).written = s.written ++ List.replicate n 0xFF := by
  induction n generalizing s with
  | zero => simp [read_sectors]
  | succ n ih =>
    obtain ⟨h1, h2, h3, h4⟩ := tty_write_fields { s with c := 0xFF }
    have hb := read_body_absent d s h
    have hfh : (read_body d s).fh d = none := by
      rw [hb, fh_congr d h2 h3]
      cases d <;> exact h
    obtain ⟨i1, i2, i3, i4⟩ := ih (read_body d s) hfh
    rw [hb] at i1 i2 i3 i4
    refine ⟨?_, ?_, ?_, ?_⟩
    · show (read_sectors d n (read_body d s)).linkIn = _
      rw [hb, i1, h1]
    · show (read_sectors d n (read_body d s)).floppy_a_fh = _
      rw [hb, i2, h2]
    · show (read_sectors d n (read_body d s)).floppy_b_fh = _
      rw [hb, i3, h3]
    · show (read_sectors d n (read_body d s)).written = _
      rw [hb, i4, h4, List.replicate_succ]
      simp [Session.written]

theorem write_body_absent (d : Drive) (s : Session) (h : s.fh d = none) :
    (write_body d s).linkIn = s.linkIn.drop 1 ∧
    (write_body d s).linkOut = s.linkOut ∧
    (write_body d s).floppy_a_fh = s.floppy_a_fh ∧
    (write_body d s).floppy_b_fh = s.floppy_b_fh := by
  unfold write_body tty_read
  cases hl : s.linkIn with
  | nil => simp [h, hl]
  | cons ev rest =>
    cases ev with
    | none =>
      have h1 : ({ s with linkIn := rest } : Session).fh d = none := by
        rw [fh_linkIn]; exact h
      simp [h1]
    | some b =>
      have h1 : ({ s with linkIn := rest, c := b } : Session).fh d = none := by
        cases d <;> exact h
      simp [h1]

theorem write_sectors_absent (d : Drive) (n : Nat) (s : Session) (h : s.fh d = none) :
    (write_sectors d n s).linkIn = s.linkIn.drop n ∧
    (write_sectors d n s).linkOut = s.linkOut ∧
    (write_sectors d n s).floppy_a_fh = s.floppy_a_fh ∧
    (write_sectors d n s).floppy_b_fh = s.floppy_b_fh := by
  induction n generalizing s with
  | zero => simp [write_sectors]
  | succ n ih =>
    obtain ⟨h1, h2, h3, h4⟩ := write_body_absent d s h
    have hfh : (write_body d s).fh d = none := by
      rw [fh_congr d h3 h4]; exact h
    obtain ⟨i1, i2, i3, i4⟩ := ih (write_body d s) hfh
    refine ⟨?_, ?_, ?_, ?_⟩
    · show (write_sectors d n (write_body d s)).linkIn = _
      rw [i1, h1, List.drop_drop]
      congr 1
      omega
    · show (write_sectors d n (write_body d s)).linkOut = _
      rw [i2, h2]
    · show (write_sectors d n (write_body d s)).floppy_a_fh = _
      rw [i3, h3]
    · show (write_sectors d n (write_body d s)).floppy_b_fh = _
      rw [i4, h4]

/-! ## Image contents under `fputc` -/

theorem padded_prefix_length (data : List Byte) (pos : Nat) :
    ((data ++ List.replicate (pos - data.length) 0).take pos).length = pos := by
  simp only [List.length_take, List.length_append, List.length_replicate]
  omega

theorem fputc_data (b : Byte) (fh : FILE) :
    (fputc b fh).data = overwrite fh.data fh.pos [b] ∧ (fputc b fh).pos = fh.pos + 1 := by
  unfold fputc overwrite
  simp

theorem overwrite_nil (data : List Byte) (pos : Nat) (h : pos ≤ data.length) :
    overwrite data pos [] = data := by
  unfold overwrite
  have h0 : pos - data.length = 0 := by omega
  simp [h0]

theorem overwrite_length (data : List Byte) (pos : Nat) (p : List Byte) :
    pos + p.length ≤ (overwrite data pos p).length := by
  unfold overwrite
  rw [List.length_append, List.length_append, padded_prefix_length]
  omega

theorem overwrite_read (data : List Byte) (pos : Nat) (p : List Byte) :
    ((overwrite data pos p).drop pos).take p.length = p := by
  unfold overwrite
  have h := padded_prefix_length data pos
  rw [List.append_assoc, List.drop_append_of_le_length (by omega), List.drop_of_length_le (by omega),
    List.nil_append, List.take_left']
  rfl

theorem overwrite_def (data : List Byte) (pos : Nat) (p : List Byte) :
    overwrite data pos p
      = (data ++ List.replicate (pos - data.length) 0).take pos ++ p
          ++ data.drop (pos + p.length) := rfl

theorem overwrite_cons (data : List Byte) (pos : Nat) (b : Byte) (p : List Byte) :
    overwrite (overwrite data pos [b]) (pos + 1) p = overwrite data pos (b :: p) := by
  have h := padded_prefix_length data pos
  have hlen : pos + 1 ≤ (overwrite data pos [b]).length := overwrite_length data pos [b]
  have h0 : pos + 1 - (overwrite data pos [b]).length = 0 := by omega
  have e1 : (overwrite data pos [b]).take (pos + 1)
      = (data ++ List.replicate (pos - data.length) 0).take pos ++ [b] := by
    unfold overwrite
    rw [List.take_append_of_le_length (by simp [h])]
    rw [List.take_of_length_le (by simp [h])]
  have e2 : (overwrite data pos [b]).drop (pos + 1 + p.length)
      = data.drop (pos + (b :: p).length) := by
    unfold overwrite
    rw [List.drop_append_eq_append_drop]
    simp only [List.length_append, h, List.length_singleton, List.drop_drop, List.length_cons,
      List.length_nil]
    rw [List.drop_of_length_le (by simp [h]), List.nil_append]
    congr 1
    omega
  rw [overwrite_def (overwrite data pos [b]), h0, List.replicate_zero, List.append_nil, e1, e2,
    overwrite_def data pos (b :: p)]
  simp

/-! ## The transfer loops on a present drive -/

theorem setFh_fh (s : Session) (d : Drive) (f : FILE) : (s.setFh d f).fh d = some f := by
  cases d <;> rfl

theorem setFh_fh_ne (s : Session) (d e : Drive) (f : FILE) (h : e ≠ d) :
    (s.setFh d f).fh e = s.fh e := by
  cases d <;> cases e <;> first | rfl | exact absurd rfl h

theorem tty_write_fh (s : Session) (e : Drive) : (tty_write s).fh e = s.fh e :=
  fh_congr e (tty_write_fields s).2.1 (tty_write_fields s).2.2.1

theorem fgetc_inside (f : FILE) (h : f.pos < f.data.length) :
    ∃ b, f.data.drop f.pos = b :: f.data.drop (f.pos + 1) ∧
      fgetc f = (some b, { f with pos := f.pos + 1 }) := by
  refine ⟨f.data[f.pos], List.drop_eq_getElem_cons h, ?_⟩
  unfold fgetc
  rw [List.get?_eq_getElem?, List.getElem?_eq_getElem h]

theorem read_body_present (d : Drive) (s : Session) (f : FILE) (h : s.fh d = some f)
    (hb : f.pos < f.data.length) :
    ∃ b, f.data.drop f.pos = b :: f.data.drop (f.pos + 1) ∧
      read_body d s = tty_write { s.setFh d { f with pos := f.pos + 1 } with c := b } := by
  obtain ⟨b, hdrop, hget⟩ := fgetc_inside f hb
  refine ⟨b, hdrop, ?_⟩
  unfold read_body
  rw [h]
  dsimp only
  rw [hget]

theorem read_sectors_present (d : Drive) (n : Nat) (s : Session) (f : FILE)
    (h : s.fh d = some f) (hb : f.pos + n ≤ f.data.length) :
    (read_sectors d n s).linkIn = s.linkIn ∧
    (read_sectors d n s).fh d = some { f with pos := f.pos + n } ∧
    (∀ e, e ≠ d → (read_sectors d n s).fh e = s.fh e) ∧
    (read_sectors d n s).written = s.written ++ (f.data.drop f.pos).take n := by
  induction n generalizing s f with
  | zero =>
    refine ⟨rfl, ?_, fun _ _ => rfl, ?_⟩
    · exact h
    · simp [read_sectors]
  | succ n ih =>
    obtain ⟨b, hdrop, hbody⟩ := read_body_present d s f h (by omega)
    obtain ⟨w1, -, -, w4⟩ := tty_write_fields { s.setFh d { f with pos := f.pos + 1 } with c := b }
    have hfh : (read_body d s).fh d = some { f with pos := f.pos + 1 } := by
      rw [hbody, tty_write_fh]
      cases d <;> rfl
    have hne : ∀ e, e ≠ d → (read_body d s).fh e = s.fh e := by
      intro e he
      rw [hbody, tty_write_fh]
      cases d <;> cases e <;> first | rfl | exact absurd rfl he
    have hin : (read_body d s).linkIn = s.linkIn := by
      rw [hbody, w1]
      cases d <;> rfl
    have hwr : (read_body d s).written = s.written ++ [b] := by
      rw [hbody, w4]
      cases d <;> rfl
    obtain ⟨i1, i2, i3, i4⟩ := ih (read_body d s) { f with pos := f.pos + 1 } hfh
      (by show f.pos + 1 + n ≤ f.data.length; omega)
    refine ⟨?_, ?_, ?_, ?_⟩
    · show (read_sectors d n (read_body d s)).linkIn = _
      rw [i1, hin]
    · show (read_sectors d n (read_body d s)).fh d = _
      rw [i2]
      show some ({ data := f.data, pos := f.pos + 1 + n } : FILE) = some { data := f.data, pos := f.pos + (n + 1) }
      congr 2
      omega
    · intro e he
      show (read_sectors d n (read_body d s)).fh e = _
      rw [i3 e he, hne e he]
    · show (read_sectors d n (read_body d s)).written = _
      rw [i4, hwr, hdrop]
      simp

theorem write_body_present (d : Drive) (s : Session) (f : FILE) (b : Byte)
    (t : List (Option Byte)) (h : s.fh d = some f) (hin : s.linkIn = some b :: t) :
    write_body d s = ({ s with linkIn := t, c := b } : Session).setFh d (fputc b f) := by
  unfold write_body tty_read
  rw [hin]
  dsimp only
  have h1 : ({ s with linkIn := t, c := b } : Session).fh d = some f := by
    cases d <;> exact h
  rw [h1]

theorem write_sectors_present (d : Drive) (p : List Byte) (s : Session) (f : FILE)
    (t : List (Option Byte)) (h : s.fh d = some f) (hin : s.linkIn = p.map some ++ t) :
    (write_sectors d p.length s).linkIn = t ∧
    (write_sectors d p.length s).linkOut = s.linkOut ∧
    (write_sectors d p.length s).linkWr = s.linkWr ∧
    (write_sectors d p.length s).fh d
      = some ⟨if p = [] then f.data else overwrite f.data f.pos p, f.pos + p.length⟩ ∧
    (∀ e, e ≠ d → (write_sectors d p.length s).fh e = s.fh e) ∧
    (write_sectors d p.length s).hpc = s.hpc ∧
    (write_sectors d p.length s).floppy_a_spt = s.floppy_a_spt ∧
    (write_sectors d p.length s).floppy_b_spt = s.floppy_b_spt := by
  induction p generalizing s f with
  | nil =>
    refine ⟨by simpa using hin, rfl, rfl, ?_, fun _ _ => rfl, rfl, rfl, rfl⟩
    simpa [write_sectors] using h
  | cons b p ih =>
    have hbody := write_body_present d s f b (p.map some ++ t) h (by simpa using hin)
    obtain ⟨hd1, hd2⟩ := fputc_data b f
    have hfh : (write_body d s).fh d = some (fputc b f) := by
      rw [hbody]; exact setFh_fh _ d _
    have hlin : (write_body d s).linkIn = p.map some ++ t := by
      rw [hbody]; cases d <;> rfl
    obtain ⟨i1, i2, i8, i3, i4, i5, i6, i7⟩ := ih (write_body d s) (fputc b f) hfh hlin
    refine ⟨?_, ?_, ?_, ?_, ?_, ?_, ?_, ?_⟩
    · exact i1
    · show (write_sectors d p.length (write_body d s)).linkOut = _
      rw [i2, hbody]; cases d <;> rfl
    · show (write_sectors d p.length (write_body d s)).linkWr = _
      rw [i8, hbody]; cases d <;> rfl
    · show (write_sectors d p.length (write_body d s)).fh d = _
      rw [i3, hd1, hd2]
      have hdata : (if p = [] then overwrite f.data f.pos [b]
            else overwrite (overwrite f.data f.pos [b]) (f.pos + 1) p)
          = overwrite f.data f.pos (b :: p) := by
        by_cases hp : p = []
        · rw [if_pos hp, hp]
        · rw [if_neg hp, overwrite_cons]
      rw [hdata, if_neg (List.cons_ne_nil b p)]
      show some (⟨_, f.pos + 1 + p.length⟩ : FILE) = some ⟨_, f.pos + (p.length + 1)⟩
      congr 2
      omega
    · intro e he
      show (write_sectors d p.length (write_body d s)).fh e = _
      rw [i4 e he, hbody, setFh_fh_ne _ d e _ he]
      cases e <;> rfl
    · show (write_sectors d p.length (write_body d s)).hpc = _
      rw [i5, hbody]; cases d <;> rfl
    · show (write_sectors d p.length (write_body d s)).floppy_a_spt = _
      rw [i6, hbody]; cases d <;> rfl
    · show (write_sectors d p.length (write_body d s)).floppy_b_spt = _
      rw [i7, hbody]; cases d <;> rfl

/-! ## Bytes the line accepts -/

theorem tty_write_accepted (s : Session) (hw : ∀ ok ∈ s.linkWr, ok = true) :
    (∀ ok ∈ (tty_write s).linkWr, ok = true) ∧
    (tty_write s).linkOut = s.linkOut ++ [(s.c, true)] := by
  unfold tty_write
  cases hl : s.linkWr with
  | nil => simp
  | cons ok rest =>
    rw [hl] at hw
    have h1 : ok = true := hw ok (List.mem_cons_self ok rest)
    subst h1
    refine ⟨fun o ho => hw o (List.mem_cons_of_mem _ ho), rfl⟩

theorem read_body_link (d : Drive) (s : Session) :
    ∃ s0 : Session, read_body d s = tty_write s0 ∧ s0.linkWr = s.linkWr ∧
      s0.linkOut = s.linkOut := by
  unfold read_body
  cases hf : s.fh d with
  | none => exact ⟨_, rfl, rfl, rfl⟩
  | some f =>
    dsimp only
    cases hg : fgetc f with
    | mk o f1 =>
      cases o with
      | none => refine ⟨_, rfl, ?_, ?_⟩ <;> cases d <;> rfl
      | some b => refine ⟨_, rfl, ?_, ?_⟩ <;> cases d <;> rfl

theorem read_sectors_accepted (d : Drive) (n : Nat) (s : Session)
    (hw : ∀ ok ∈ s.linkWr, ok = true) :
    ∃ l : List Byte, (read_sectors d n s).linkOut = s.linkOut ++ l.map (fun b => (b, true)) := by
  induction n generalizing s with
  | zero => exact ⟨[], by simp [read_sectors]⟩
  | succ n ih =>
    obtain ⟨s0, hb, h1, h2⟩ := read_body_link d s
    obtain ⟨a1, a2⟩ := tty_write_accepted s0 (by rw [h1]; exact hw)
    obtain ⟨l, hl⟩ := ih (read_body d s) (by rw [hb]; exact a1)
    refine ⟨s0.c :: l, ?_⟩
    show (read_sectors d n (read_body d s)).linkOut = _
    rw [hl, hb, a2, h2]
    simp

theorem delivered_of_accepted (s s1 : Session) (l q : List Byte)
    (h : s1.linkOut = s.linkOut ++ l.map (fun b => (b, true)))
    (hq : s1.written = s.written ++ q) :
    s1.delivered = s.delivered ++ q := by
  have hw : s1.written = s.written ++ l := by
    unfold Session.written
    rw [h]
    simp [Function.comp_def]
  have hlq : l = q := List.append_cancel_left (hw.symm.trans hq)
  subst hlq
  unfold Session.delivered
  rw [h]
  simp [List.filter_map, Function.comp_def]

/-! ## The transfer by opcode -/

theorem transfer_read (d : Drive) (r : Registers) (s : Session) (h : r.ah.val = 0x02) :
    transfer d r s = .next (read_sectors d (r.al.val * 512) s) := by
  unfold transfer
  rw [if_pos (by rw [h]; rfl), transferLength_toNat, Nat.mul_comm]

theorem transfer_write (d : Drive) (r : Registers) (s : Session) (h : r.ah.val = 0x03) :
    transfer d r s = .next (write_sectors d (r.al.val * 512) s) := by
  unfold transfer
  rw [if_neg (by rw [h]; decide), if_pos (by rw [h]; rfl), transferLength_toNat, Nat.mul_comm]
  rfl

theorem transfer_other (d : Drive) (r : Registers) (s : Session)
    (h2 : r.ah.val ≠ 0x02) (h3 : r.ah.val ≠ 0x03) :
    transfer d r s = .exit .unhandledOp EXIT_FAILURE s := by
  unfold transfer OPERATION_READ_DISK_SECTORS OPERATION_WRITE_DISK_SECTORS
  rw [if_neg h2, if_neg h3]

/-! ## Start-up -/

theorem toWord_val (v : Int) (h1 : 0 ≤ v) (h2 : v ≤ 65535) : ((toWord v).val : Int) = v := by
  unfold toWord
  show (((v % 65536).toNat : Nat) : Int) = v
  omega

theorem toWord_ne_zero (v : Int) (h1 : 1 ≤ v) (h2 : v ≤ 65535) : toWord v ≠ 0 := by
  intro h
  have hv := toWord_val v (by omega) h2
  rw [h] at hv
  simp at hv
  omega

theorem toWord_eq_iff (v : Int) (k : Nat) (h1 : 0 ≤ v) (h2 : v ≤ 65535) (hk : k < 65536) :
    toWord v = ⟨k, hk⟩ ↔ v = (k : Int) := by
  rw [Fin.ext_iff]
  show (v % 65536).toNat = k ↔ v = (k : Int)
  omega

theorem startup_images (inv : Invocation) (linkIn : List (Option Byte)) (linkWr : List Bool)
    (h : inv.reachesImages) :
    startup inv linkIn linkWr =
      match open_a inv (initial inv linkIn linkWr) with
      | .exit e result s => .exit e result s
      | .next s => open_b inv s := by
  obtain ⟨h1, h2, h3, h4, h5, h6⟩ := h
  unfold startup
  simp only [h1, h4, h5, h6]
  rw [if_neg (by decide), if_neg h2, if_neg h3, if_neg (by decide), if_neg (by decide),
    if_neg (by decide)]

theorem get_sectors_per_track_values (fh : FILE) :
    (get_sectors_per_track fh).1 = 0 ∨ (get_sectors_per_track fh).1 = 9 ∨
      (get_sectors_per_track fh).1 = 18 := by
  unfold get_sectors_per_track
  dsimp only
  cases fread_u16 ((fseek fh 24).getD fh) with
  | mk o f1 =>
    cases o with
    | none => exact Or.inl rfl
    | some spt =>
      dsimp only
      by_cases h : spt = 9 ∨ spt = 18
      · rw [if_pos h]
        rcases h with h | h
        · exact Or.inr (Or.inl h)
        · exact Or.inr (Or.inr h)
      · rw [if_neg h]
        exact Or.inl rfl

theorem seek_boot_field (data : List Byte) (pos : Nat) :
    (fseek ⟨data, pos⟩ 24).getD ⟨data, pos⟩ = ⟨data, 24⟩ := by
  unfold fseek
  rw [if_neg (by decide)]
  rfl

theorem get_sectors_per_track_field (data : List Byte) (pos : Nat) (lo hi : Byte)
    (hlo : data.get? 24 = some lo) (hhi : data.get? 25 = some hi) :
    (get_sectors_per_track ⟨data, pos⟩).1 =
      if lo.val + 256 * hi.val = 18 then 18
      else if lo.val + 256 * hi.val = 9 then 9 else 0 := by
  have hl := lo.isLt
  have hh := hi.isLt
  have hread : fread_u16 ⟨data, 24⟩
      = (some (toWord ((lo.val : Int) + 256 * (hi.val : Int))), ⟨data, 26⟩) := by
    unfold fread_u16
    dsimp only
    rw [hlo, hhi]
  unfold get_sectors_per_track
  dsimp only
  rw [seek_boot_field, hread]
  dsimp only
  have e9 := toWord_eq_iff ((lo.val : Int) + 256 * (hi.val : Int)) 9 (by omega) (by omega)
    (by decide)
  have e18 := toWord_eq_iff ((lo.val : Int) + 256 * (hi.val : Int)) 18 (by omega) (by omega)
    (by decide)
  have c9 : ((lo.val : Int) + 256 * (hi.val : Int) = ((9 : Nat) : Int)) ↔ lo.val + 256 * hi.val = 9 := by
    omega
  have c18 : ((lo.val : Int) + 256 * (hi.val : Int) = ((18 : Nat) : Int)) ↔ lo.val + 256 * hi.val = 18 := by
    omega
  rw [c9] at e9
  rw [c18] at e18
  change toWord ((lo.val : Int) + 256 * (hi.val : Int)) = 9 ↔ _ at e9
  change toWord ((lo.val : Int) + 256 * (hi.val : Int)) = 18 ↔ _ at e18
  by_cases h18 : lo.val + 256 * hi.val = 18
  · rw [if_pos (Or.inr (e18.mpr h18)), if_pos h18]
    exact e18.mpr h18
  · by_cases h9 : lo.val + 256 * hi.val = 9
    · rw [if_pos (Or.inl (e9.mpr h9)), if_neg h18, if_pos h9]
      exact e9.mpr h9
    · rw [if_neg (by rw [e9, e18]; tauto), if_neg h18, if_neg h9]

theorem get_sectors_per_track_short (data : List Byte) (pos : Nat) (h : data.length < 26) :
    (get_sectors_per_track ⟨data, pos⟩).1 = 0 := by
  have hread : (fread_u16 ⟨data, 24⟩).1 = none := by
    unfold fread_u16
    dsimp only
    have h25 : data.get? (24 + 1) = none := List.get?_eq_none.mpr (by omega)
    rw [h25]
    cases data.get? 24 <;> rfl
  unfold get_sectors_per_track
  dsimp only
  rw [seek_boot_field]
  cases hr : fread_u16 ⟨data, 24⟩ with
  | mk o f1 =>
    rw [hr] at hread
    cases o with
    | none => rfl
    | some w => exact absurd hread (by simp)


/-! ## Opening and probing the images -/

theorem open_a_none (inv : Invocation) (s : Session) (h : inv.floppy_a_image = none) :
    open_a inv s = .next s := by
  unfold open_a; rw [h]

theorem open_b_none (inv : Invocation) (s : Session) (h : inv.floppy_b_image = none) :
    open_b inv s = .next s := by
  unfold open_b; rw [h]

theorem open_a_some (inv : Invocation) (s : Session) (data : List Byte)
    (h : inv.floppy_a_image = some (some data)) :
    open_a inv s =
      if (resolve_spt inv.spt ⟨data, 0⟩).1 = 0 then
        .exit .invalidSptA EXIT_FAILURE
          { s with floppy_a_fh := some (resolve_spt inv.spt ⟨data, 0⟩).2,
                   floppy_a_spt := (resolve_spt inv.spt ⟨data, 0⟩).1 }
      else
        .next { s with floppy_a_fh := some (resolve_spt inv.spt ⟨data, 0⟩).2,
                       floppy_a_spt := (resolve_spt inv.spt ⟨data, 0⟩).1 } := by
  unfold open_a; rw [h]

theorem open_b_some (inv : Invocation) (s : Session) (data : List Byte)
    (h : inv.floppy_b_image = some (some data)) :
    open_b inv s =
      if (resolve_spt inv.spt ⟨data, 0⟩).1 = 0 then
        .exit .invalidSptB EXIT_FAILURE
          { s with floppy_b_fh := some (resolve_spt inv.spt ⟨data, 0⟩).2,
                   floppy_b_spt := (resolve_spt inv.spt ⟨data, 0⟩).1 }
      else
        .next { s with floppy_b_fh := some (resolve_spt inv.spt ⟨data, 0⟩).2,
                       floppy_b_spt := (resolve_spt inv.spt ⟨data, 0⟩).1 } := by
  unfold open_b; rw [h]

theorem resolve_spt_probe (fh : FILE) : resolve_spt 0 fh = get_sectors_per_track fh := by
  unfold resolve_spt; rw [if_pos rfl]

theorem resolve_spt_override (v : Int) (fh : FILE) (h : v ≠ 0) :
    resolve_spt v fh = (toWord v, fh) := by
  unfold resolve_spt; rw [if_neg h]

theorem main_of_startup_exit (inv : Invocation) (linkIn : List (Option Byte))
    (linkWr : List Bool) (fuel : Nat) (e : Fatal) (result : Int) (s : Session)
    (h : startup inv linkIn linkWr = .exit e result s) :
    main inv linkIn linkWr fuel = .exit e result s := by
  unfold main; rw [h]

theorem startup_next (inv : Invocation) (linkIn : List (Option Byte)) (linkWr : List Bool)
    (s : Session) (h : startup inv linkIn linkWr = .next s) : inv.reachesImages := by
  unfold startup at h
  dsimp only at h
  unfold Invocation.reachesImages
  split at h
  · exact absurd h (by simp)
  · split at h
    · exact absurd h (by simp)
    · split at h
      · exact absurd h (by simp)
      · split at h
        · exact absurd h (by simp)
        · split at h
          · exact absurd h (by simp)
          · split at h
            · exact absurd h (by simp)
            · simp_all

theorem open_a_next (inv : Invocation) (s0 s : Session) (h : open_a inv s0 = .next s) :
    s.floppy_b_fh = s0.floppy_b_fh ∧ s.floppy_b_spt = s0.floppy_b_spt ∧
    s.hpc = s0.hpc ∧ s.linkIn = s0.linkIn ∧ inv.floppy_a_image ≠ some none ∧
    (inv.floppy_a_image = none → s.floppy_a_fh = s0.floppy_a_fh) ∧
    (∀ data, inv.floppy_a_image = some (some data) →
      s.floppy_a_spt = (resolve_spt inv.spt ⟨data, 0⟩).1 ∧
      s.floppy_a_fh = some (resolve_spt inv.spt ⟨data, 0⟩).2 ∧
      s.floppy_a_spt ≠ 0) := by
  cases hA : inv.floppy_a_image with
  | none =>
    rw [open_a_none inv s0 hA] at h
    injection h with h
    subst h
    exact ⟨rfl, rfl, rfl, rfl, by simp, fun _ => rfl, fun _ hd => absurd hd (by simp)⟩
  | some oa =>
    cases oa with
    | none =>
      unfold open_a at h
      rw [hA] at h
      exact absurd h (by simp)
    | some dA =>
      rw [open_a_some inv s0 dA hA] at h
      by_cases hp : (resolve_spt inv.spt ⟨dA, 0⟩).1 = 0
      · rw [if_pos hp] at h
        exact absurd h (by simp)
      · rw [if_neg hp] at h
        injection h with h
        subst h
        refine ⟨rfl, rfl, rfl, rfl, by simp, fun hn => absurd hn (by simp), ?_⟩
        intro data hd
        have : dA = data := by
          injection hd with hd
          injection hd
        subst this
        exact ⟨rfl, rfl, hp⟩

theorem open_b_next (inv : Invocation) (s0 s : Session) (h : open_b inv s0 = .next s) :
    s.floppy_a_fh = s0.floppy_a_fh ∧ s.floppy_a_spt = s0.floppy_a_spt ∧
    s.hpc = s0.hpc ∧ s.linkIn = s0.linkIn ∧ inv.floppy_b_image ≠ some none ∧
    (inv.floppy_b_image = none → s.floppy_b_fh = s0.floppy_b_fh) ∧
    (∀ data, inv.floppy_b_image = some (some data) →
      s.floppy_b_spt = (resolve_spt inv.spt ⟨data, 0⟩).1 ∧
      s.floppy_b_fh = some (resolve_spt inv.spt ⟨data, 0⟩).2 ∧
      s.floppy_b_spt ≠ 0) := by
  cases hB : inv.floppy_b_image with
  | none =>
    rw [open_b_none inv s0 hB] at h
    injection h with h
    subst h
    exact ⟨rfl, rfl, rfl, rfl, by simp, fun _ => rfl, fun _ hd => absurd hd (by simp)⟩
  | some ob =>
    cases ob with
    | none =>
      unfold open_b at h
      rw [hB] at h
      exact absurd h (by simp)
    | some dB =>
      rw [open_b_some inv s0 dB hB] at h
      by_cases hp : (resolve_spt inv.spt ⟨dB, 0⟩).1 = 0
      · rw [if_pos hp] at h
        exact absurd h (by simp)
      · rw [if_neg hp] at h
        injection h with h
        subst h
        refine ⟨rfl, rfl, rfl, rfl, by simp, fun hn => absurd hn (by simp), ?_⟩
        intro data hd
        have : dB = data := by
          injection hd with hd
          injection hd
        subst this
        exact ⟨rfl, rfl, hp⟩

/-- What a start-up that reaches the command loop has resolved. -/
theorem startup_resolved (inv : Invocation) (linkIn : List (Option Byte))
    (linkWr : List Bool) (s : Session) (h : startup inv linkIn linkWr = .next s) :
    s.hpc = inv.hpc ∧ s.linkIn = linkIn ∧
    inv.floppy_a_image ≠ some none ∧ inv.floppy_b_image ≠ some none ∧
    (inv.floppy_a_image = none → s.floppy_a_fh = none) ∧
    (inv.floppy_b_image = none → s.floppy_b_fh = none) ∧
    (∀ data, inv.floppy_a_image = some (some data) →
      s.floppy_a_spt = (resolve_spt inv.spt ⟨data, 0⟩).1 ∧
      s.floppy_a_fh = some (resolve_spt inv.spt ⟨data, 0⟩).2 ∧
      s.floppy_a_spt ≠ 0) ∧
    (∀ data, inv.floppy_b_image = some (some data) →
      s.floppy_b_spt = (resolve_spt inv.spt ⟨data, 0⟩).1 ∧
      s.floppy_b_fh = some (resolve_spt inv.spt ⟨data, 0⟩).2 ∧
      s.floppy_b_spt ≠ 0) := by
  have hr := startup_next inv linkIn linkWr s h
  rw [startup_images inv linkIn linkWr hr] at h
  cases ha : open_a inv (initial inv linkIn linkWr) with
  | exit e result s1 =>
    rw [ha] at h
    exact absurd h (by simp)
  | next sa =>
    rw [ha] at h
    dsimp only at h
    obtain ⟨a1, a2, a3, a4, a7, a5, a6⟩ := open_a_next inv _ sa ha
    obtain ⟨b1, b2, b3, b4, b7, b5, b6⟩ := open_b_next inv sa s h
    refine ⟨by rw [b3, a3]; rfl, by rw [b4, a4]; rfl, a7, b7, ?_, ?_, ?_, b6⟩
    · intro hn; rw [b1, a5 hn]; rfl
    · intro hn; rw [b5 hn, a1]; rfl
    · intro data hd
      obtain ⟨c1, c2, c3⟩ := a6 data hd
      exact ⟨by rw [b2, c1], by rw [b1, c2], by rw [b2]; exact c3⟩

theorem startup_probe_failure (inv : Invocation) (linkIn : List (Option Byte))
    (linkWr : List Bool) (data : List Byte)
    (hr : inv.reachesImages) (hs : inv.spt = 0)
    (ha : inv.floppy_a_image ≠ some none)
    (hdata : inv.floppy_a_image = some (some data) ∨ inv.floppy_b_image = some (some data))
    (h0 : (get_sectors_per_track ⟨data, 0⟩).1 = 0) :
    ∃ e s1, startup inv linkIn linkWr = .exit e EXIT_FAILURE s1 ∧
      e.kind = .InvalidGeometry ∧ s1.linkIn = linkIn ∧ s1.linkOut = [] := by
  rw [startup_images inv linkIn linkWr hr]
  cases hA : inv.floppy_a_image with
  | none =>
    rw [open_a_none inv _ hA]
    dsimp only
    rcases hdata with h | h
    · rw [hA] at h; exact absurd h (by simp)
    · rw [open_b_some inv _ data h, hs, resolve_spt_probe, if_pos h0]
      exact ⟨.invalidSptB, _, rfl, rfl, rfl, rfl⟩
  | some oa =>
    cases oa with
    | none => exact absurd hA ha
    | some dA =>
      rw [open_a_some inv _ dA hA, hs, resolve_spt_probe]
      by_cases hpa : (get_sectors_per_track ⟨dA, 0⟩).1 = 0
      · rw [if_pos hpa]
        exact ⟨.invalidSptA, _, rfl, rfl, rfl, rfl⟩
      · rw [if_neg hpa]
        dsimp only
        rcases hdata with h | h
        · rw [hA] at h
          have : dA = data := by
            injection h with h
            injection h
          subst this
          exact absurd h0 hpa
        · rw [open_b_some inv _ data h, hs, resolve_spt_probe, if_pos h0]
          exact ⟨.invalidSptB, _, rfl, rfl, rfl, rfl⟩

theorem startup_succeeds (inv : Invocation) (linkIn : List (Option Byte))
    (linkWr : List Bool) (hr : inv.reachesImages)
    (ha : inv.floppy_a_image ≠ some none) (hb : inv.floppy_b_image ≠ some none)
    (hA : ∀ data, inv.floppy_a_image = some (some data) →
      (resolve_spt inv.spt ⟨data, 0⟩).1 ≠ 0)
    (hB : ∀ data, inv.floppy_b_image = some (some data) →
      (resolve_spt inv.spt ⟨data, 0⟩).1 ≠ 0) :
    ∃ s, startup inv linkIn linkWr = .next s := by
  rw [startup_images inv linkIn linkWr hr]
  have hb' : ∀ s0, ∃ s, open_b inv s0 = .next s := by
    intro s0
    cases hi : inv.floppy_b_image with
    | none => exact ⟨_, open_b_none inv s0 hi⟩
    | some ob =>
      cases ob with
      | none => exact absurd hi hb
      | some dB =>
        rw [open_b_some inv s0 dB hi, if_neg (hB dB hi)]
        exact ⟨_, rfl⟩
  cases hi : inv.floppy_a_image with
  | none =>
    rw [open_a_none inv _ hi]
    exact hb' _
  | some oa =>
    cases oa with
    | none => exact absurd hi ha
    | some dA =>
      rw [open_a_some inv _ dA hi, if_neg (hA dA hi)]
      exact hb' _

theorem open_a_exit (inv : Invocation) (s0 s1 : Session) (e : Fatal) (result : Int)
    (h : open_a inv s0 = .exit e result s1)
    (hv : ∀ fh, (resolve_spt inv.spt fh).1 ≠ 0) : e = .fopenA := by
  cases hi : inv.floppy_a_image with
  | none =>
    rw [open_a_none inv s0 hi] at h
    exact absurd h (by simp)
  | some oa =>
    cases oa with
    | none =>
      unfold open_a at h
      rw [hi] at h
      injection h with h
      exact h.symm
    | some dA =>
      rw [open_a_some inv s0 dA hi, if_neg (hv _)] at h
      exact absurd h (by simp)

theorem open_b_exit (inv : Invocation) (s0 s1 : Session) (e : Fatal) (result : Int)
    (h : open_b inv s0 = .exit e result s1)
    (hv : ∀ fh, (resolve_spt inv.spt fh).1 ≠ 0) : e = .fopenB := by
  cases hi : inv.floppy_b_image with
  | none =>
    rw [open_b_none inv s0 hi] at h
    exact absurd h (by simp)
  | some ob =>
    cases ob with
    | none =>
      unfold open_b at h
      rw [hi] at h
      injection h with h
      exact h.symm
    | some dB =>
      rw [open_b_some inv s0 dB hi, if_neg (hv _)] at h
      exact absurd h (by simp)

theorem startup_exit_kind (inv : Invocation) (linkIn : List (Option Byte))
    (linkWr : List Bool) (e : Fatal) (result : Int) (s1 : Session)
    (h : startup inv linkIn linkWr = .exit e result s1)
    (hv : ∀ fh, (resolve_spt inv.spt fh).1 ≠ 0) : e.kind ≠ .InvalidGeometry := by
  unfold startup at h
  dsimp only at h
  split at h
  · injection h with h; subst h; decide
  · split at h
    · injection h with h; subst h; decide
    · split at h
      · injection h with h; subst h; decide
      · split at h
        · injection h with h; subst h; decide
        · split at h
          · injection h with h; subst h; decide
          · split at h
            · injection h with h; subst h; decide
            · cases ha : open_a inv (initial inv linkIn linkWr) with
              | exit e1 r1 s2 =>
                rw [ha] at h
                injection h with h
                subst h
                rw [open_a_exit inv _ _ _ _ ha hv]
                decide
              | next sa =>
                rw [ha] at h
                dsimp only at h
                rw [open_b_exit inv _ _ _ _ h hv]
                decide

/-! ## Address translation: the claims -/

theorem noOverflow_default (r : Registers) (spt : Int)
    (h : spt = 0 ∨ spt = 9 ∨ spt = 18) :
    NoOverflow HEADS_PER_CYLINDER_DEFAULT spt r := by
  have h1 := r.cl.isLt
  have h2 := r.ch.isLt
  have h3 := r.dh.isLt
  have hs : specSector r = ((r.cl.val % 64 : Nat) : Int) := sectorOf_eq r
  unfold NoOverflow InInt specOffset specLba HEADS_PER_CYLINDER_DEFAULT
  rw [specCylinder_eq, hs]
  rcases h with h | h | h <;> subst h <;> omega

/-- C1, refuted as stated.  The session `-a IMAGE -S 65535` with the default
two heads, on a read frame for cylinder 1023, head 255, sector 63: over the
integers the byte offset is 77207601664; the `int` the source computes and
hands to `fseek` is -101809664, so the pass ends in the `fseek` diagnostic.
The session `-a IMAGE -S 18 -H 1000000` on the same frame: over the integers
`lba` is 18414004652, which no `int` holds; the source computes 1234135468. -/
theorem address_translation_overflow :
    startup (invocationA tinyImage 65535) (frameEvents lastAddressRead) []
      = .next (sessionA tinyImage 65535 (frameEvents lastAddressRead)) ∧
    specLba 2 65535 lastAddressRead = 150796097 ∧
    specOffset 2 65535 lastAddressRead = 77207601664 ∧
    offsetOf 2 65535 lastAddressRead = -101809664 ∧
    dispatch (sessionA tinyImage 65535 (frameEvents lastAddressRead))
      = .exit .seek EXIT_FAILURE (sessionA tinyImage 65535 []) ∧
    startup invocationManyHeads (frameEvents lastAddressRead) []
      = .next { sessionA tinyImage 18 (frameEvents lastAddressRead) with hpc := 1000000 } ∧
    specLba 1000000 18 lastAddressRead = 18414004652 ∧
    ¬ InInt (specLba 1000000 18 lastAddressRead) ∧
    lbaOf 1000000 18 lastAddressRead = 1234135468 := by
  refine ⟨by decide, by decide, by decide, by decide, by decide, by decide, by decide,
    by decide, by decide⟩

/-- C1, amended: for every frame the cylinder is `((cl & 0xC0) << 2) | ch`,
between 0 and 1023, and the sector is `cl & 0x3F`.  For every geometry under
which no intermediate value of the formula leaves the range of an `int`, `lba`
is `(cylinder*hpc + dh)*spt + sector - 1` over the integers, and the pass over
a frame for a present drive hands `lba*512`, over the integers, to `fseek`
before the transfer. -/
theorem address_translation (s : Session) (r : Registers) (d : Drive) (fh : FILE)
    (t : List (Option Byte))
    (hin : s.linkIn = frameEvents r ++ t) (hd : select_drive r = some d)
    (hfh : s.fh d = some fh)
    (hno : NoOverflow s.hpc ((s.spt d).val : Int) r) :
    cylinderOf r = specCylinder r ∧ 0 ≤ cylinderOf r ∧ cylinderOf r ≤ 1023 ∧
    sectorOf r = specSector r ∧
    lbaOf s.hpc ((s.spt d).val : Int) r = specLba s.hpc ((s.spt d).val : Int) r ∧
    offsetOf s.hpc ((s.spt d).val : Int) r = specLba s.hpc ((s.spt d).val : Int) r * 512 ∧
    dispatch s =
      match fseek fh (specLba s.hpc ((s.spt d).val : Int) r * 512) with
      | none => .exit .seek EXIT_FAILURE { s with linkIn := t }
      | some fh1 => transfer d r (({ s with linkIn := t } : Session).setFh d fh1) := by
  refine ⟨cylinderOf_eq_spec r, (cylinderOf_range r).1, (cylinderOf_range r).2,
    sectorOf_eq_spec r, lbaOf_eq_spec hno, offsetOf_eq_spec hno, ?_⟩
  rw [dispatch_frame s r t hin, hd]
  have hfh1 : ({ s with linkIn := t } : Session).fh d = some fh := by
    rw [fh_linkIn]; exact hfh
  dsimp only
  rw [position_present d _ _ fh hfh1, offsetOf_eq_spec hno]
  unfold specOffset
  cases fseek fh (specLba s.hpc ((s.spt d).val : Int) r * 512) <;> rfl

/-- Witness of C1, amended: the end-to-end scenario, 18 sectors per track and
two heads, frame `01 02 01 00 00 00`. -/
theorem address_translation_witness :
    NoOverflow 2 18 firstSectorRead ∧
    cylinderOf firstSectorRead = 0 ∧ sectorOf firstSectorRead = 1 ∧
    lbaOf 2 18 firstSectorRead = 0 ∧ offsetOf 2 18 firstSectorRead = 0 ∧
    dispatch (sessionA bootImage 18 (frameEvents firstSectorRead)) =
      transfer .A firstSectorRead (sessionA bootImage 18 []) := by
  have h := address_translation (sessionA bootImage 18 (frameEvents firstSectorRead))
    firstSectorRead .A ⟨bootImage, 0⟩ [] rfl (by decide) rfl (by decide)
  refine ⟨by decide, by decide, by decide, by decide, by decide, ?_⟩
  rw [h.2.2.2.2.2.2]
  rfl

/-- C9, refuted as stated: at the default of two heads per cylinder, the frame
for cylinder 1, head 0, sector 1 with 18 sectors per track does not translate
to block 18. -/
theorem fixture_cylinder_one_default_heads :
    cylinderOf cylinderOneRead = 1 ∧ sectorOf cylinderOneRead = 1 ∧
    cylinderOneRead.dh = 0 ∧
    lbaOf HEADS_PER_CYLINDER_DEFAULT 18 cylinderOneRead ≠ 18 := by
  decide

/-- C9, amended: for cylinder 1, head 0, sector 1 (`CL=0x01, CH=0x01, DH=0x00`)
and 18 sectors per track, the translation yields block 36 at the default of
two heads per cylinder; block 18 is what one head per cylinder gives. -/
theorem fixture_cylinder_one (al ah dl : Byte) :
    cylinderOf ⟨al, ah, 0x01, 0x01, dl, 0x00⟩ = 1 ∧
    sectorOf ⟨al, ah, 0x01, 0x01, dl, 0x00⟩ = 1 ∧
    lbaOf HEADS_PER_CYLINDER_DEFAULT 18 ⟨al, ah, 0x01, 0x01, dl, 0x00⟩ = 36 ∧
    lbaOf HEADS_PER_CYLINDER_DEFAULT 18 ⟨al, ah, 0x01, 0x01, dl, 0x00⟩
      = specLba 2 18 ⟨al, ah, 0x01, 0x01, dl, 0x00⟩ ∧
    lbaOf 1 18 ⟨al, ah, 0x01, 0x01, dl, 0x00⟩ = 18 := by
  refine ⟨?_, ?_, ?_, ?_, ?_⟩ <;>
    simp only [cylinderOf, sectorOf, lbaOf, specLba, specCylinder, specSector,
      HEADS_PER_CYLINDER_DEFAULT] <;> decide

/-- C10: with the default of two heads per cylinder and a probed value of
sectors per track (9 or 18, or 0 for a slot left absent), for every frame the
`int` computation stays in range: cylinder in 0..1023, sector in 0..63, `lba`
in -1..41480, `lba*512` in -512..21237760, both equal to the formula over the
integers, and the transfer length `512*al` in 0..130560. -/
theorem no_wraparound_default (r : Registers) (spt : Int)
    (h : spt = 0 ∨ spt = 9 ∨ spt = 18) :
    (0 ≤ cylinderOf r ∧ cylinderOf r ≤ 1023) ∧
    (0 ≤ sectorOf r ∧ sectorOf r ≤ 63) ∧
    (-1 ≤ lbaOf HEADS_PER_CYLINDER_DEFAULT spt r ∧
      lbaOf HEADS_PER_CYLINDER_DEFAULT spt r ≤ 41480) ∧
    (-512 ≤ offsetOf HEADS_PER_CYLINDER_DEFAULT spt r ∧
      offsetOf HEADS_PER_CYLINDER_DEFAULT spt r ≤ 21237760 ∧
      offsetOf HEADS_PER_CYLINDER_DEFAULT spt r < 2 ^ 31) ∧
    NoOverflow HEADS_PER_CYLINDER_DEFAULT spt r ∧
    lbaOf HEADS_PER_CYLINDER_DEFAULT spt r = specLba HEADS_PER_CYLINDER_DEFAULT spt r ∧
    offsetOf HEADS_PER_CYLINDER_DEFAULT spt r
      = specLba HEADS_PER_CYLINDER_DEFAULT spt r * 512 ∧
    transferLength r = 512 * (r.al.val : Int) ∧
    (0 ≤ transferLength r ∧ transferLength r ≤ 130560) := by
  have hno := noOverflow_default r spt h
  have h1 := r.cl.isLt
  have h2 := r.ch.isLt
  have h3 := r.dh.isLt
  have h4 := r.al.isLt
  have hs : specSector r = ((r.cl.val % 64 : Nat) : Int) := sectorOf_eq r
  have hl : specLba HEADS_PER_CYLINDER_DEFAULT spt r
      = (((256 * ((r.cl.val / 64 : Nat) : Int) + (r.ch.val : Int)) * 2 + (r.dh.val : Int)) * spt
        + ((r.cl.val % 64 : Nat) : Int) - 1) := by
    unfold specLba HEADS_PER_CYLINDER_DEFAULT
    rw [specCylinder_eq, hs]
  refine ⟨cylinderOf_range r, ?_, ?_, ?_, hno, lbaOf_eq_spec hno, offsetOf_eq_spec hno,
    transferLength_eq r, ?_⟩
  · rw [sectorOf_eq]; omega
  · rw [lbaOf_eq_spec hno, hl]
    rcases h with h | h | h <;> subst h <;> omega
  · rw [offsetOf_eq_spec hno, specOffset, hl]
    rcases h with h | h | h <;> subst h <;> omega
  · rw [transferLength_eq]; omega

/-- Witness of C10: 18 sectors per track and the frame for the last address
a frame can name, where `lba` reaches 41480. -/
theorem no_wraparound_default_witness :
    ((18 : Int) = 0 ∨ (18 : Int) = 9 ∨ (18 : Int) = 18) ∧
    lbaOf HEADS_PER_CYLINDER_DEFAULT 18 lastAddressRead = 41480 ∧
    offsetOf HEADS_PER_CYLINDER_DEFAULT 18 lastAddressRead = 21237760 ∧
    NoOverflow HEADS_PER_CYLINDER_DEFAULT 18 lastAddressRead := by
  have h := no_wraparound_default lastAddressRead 18 (by decide)
  exact ⟨by decide, by decide, by decide, h.2.2.2.2.1⟩


/-! ## Absent drives and unsupported opcodes: the claims -/

/-- C4: a frame with `DL` 0 or 1 that selects a slot with no image never
seeks and never fails, whatever `CL`, `CH`, `DH` are.  A read hands exactly
`al*512` bytes `0xFF` to the line; a write takes exactly `al*512` reads from the
line after the frame; neither touches an image, and the loop goes on to the
next frame. -/
theorem absent_drive (s : Session) (r : Registers) (d : Drive) (t : List (Option Byte))
    (hin : s.linkIn = frameEvents r ++ t) (hd : select_drive r = some d)
    (hfh : s.fh d = none) :
    (r.ah.val = 0x02 → ∃ s1, dispatch s = .next s1 ∧
      s1.written = s.written ++ List.replicate (r.al.val * 512) 0xFF ∧
      ((∀ ok ∈ s.linkWr, ok = true) →
        s1.delivered = s.delivered ++ List.replicate (r.al.val * 512) 0xFF) ∧
      s1.linkIn = t ∧
      s1.floppy_a_fh = s.floppy_a_fh ∧ s1.floppy_b_fh = s.floppy_b_fh) ∧
    (r.ah.val = 0x03 → ∃ s1, dispatch s = .next s1 ∧
      s1.linkIn = t.drop (r.al.val * 512) ∧
      s1.linkOut = s.linkOut ∧
      s1.floppy_a_fh = s.floppy_a_fh ∧ s1.floppy_b_fh = s.floppy_b_fh) := by
  have hfh1 : ({ s with linkIn := t } : Session).fh d = none := by
    rw [fh_linkIn]; exact hfh
  have hstep : dispatch s = transfer d r { s with linkIn := t } := by
    rw [dispatch_frame s r t hin, hd]
    dsimp only
    rw [position_absent d _ _ hfh1]
  constructor
  · intro hah
    obtain ⟨h1, h2, h3, h4⟩ := read_sectors_absent d (r.al.val * 512) _ hfh1
    refine ⟨_, by rw [hstep, transfer_read d r _ hah], h4, ?_, h1, h2, h3⟩
    intro hw
    obtain ⟨l, hl⟩ := read_sectors_accepted d (r.al.val * 512) { s with linkIn := t } hw
    exact delivered_of_accepted { s with linkIn := t } _ l _ hl h4
  · intro hah
    obtain ⟨h1, h2, h3, h4⟩ := write_sectors_absent d (r.al.val * 512) _ hfh1
    exact ⟨_, by rw [hstep, transfer_write d r _ hah], h1, h2, h3, h4⟩

/-- Witness of C4: image in drive A only, a one-sector read frame for drive B
followed by a one-sector write frame for drive B. -/
theorem absent_drive_witness :
    (sessionA tinyImage 18 (frameEvents driveBRead ++ frameEvents driveBWrite)).fh .B = none ∧
    select_drive driveBRead = some .B ∧
    ∃ s1, dispatch (sessionA tinyImage 18 (frameEvents driveBRead ++ frameEvents driveBWrite))
        = .next s1 ∧
      s1.written = List.replicate 512 0xFF ∧
      s1.linkIn = frameEvents driveBWrite ∧
      s1.floppy_a_fh = some ⟨tinyImage, 0⟩ ∧ s1.floppy_b_fh = none := by
  have h := absent_drive (sessionA tinyImage 18 (frameEvents driveBRead ++ frameEvents driveBWrite))
    driveBRead .B (frameEvents driveBWrite) rfl (by decide) rfl
  obtain ⟨s1, h1, h2, -, h4, h5, h6⟩ := h.1 (by decide)
  exact ⟨rfl, by decide, s1, h1, h2, h4, h5, h6⟩

/-- C7, refuted as stated: image in drive A, 18 sectors per track, two heads,
and the frame `01 09 00 00 00 00`.  Sector 0 gives `lba = -1`, `fseek` to
`-512` fails, and the pass ends in the `fseek` diagnostic, not in
"Unhandled operation". -/
theorem unsupported_opcode_seek_first :
    select_drive opcodeNineSectorZero = some .A ∧
    opcodeNineSectorZero.ah.val ≠ 0x02 ∧ opcodeNineSectorZero.ah.val ≠ 0x03 ∧
    offsetOf 2 18 opcodeNineSectorZero = -512 ∧
    dispatch (sessionA tinyImage 18 (frameEvents opcodeNineSectorZero))
      = .exit .seek EXIT_FAILURE (sessionA tinyImage 18 []) ∧
    Fatal.seek.kind ≠ ErrorKind.UnsupportedOperation := by
  refine ⟨by decide, by decide, by decide, by decide, by decide, by decide⟩

/-- C7, amended: a frame with `DL` 0 or 1 and an opcode other than `0x02` and
`0x03` ends the session with a non-zero status, with no byte handed to the
line, no read from the line past the frame, and no byte of an image changed.
The diagnostic is "Unhandled operation", except that for a present drive
whose byte offset is negative the earlier `fseek` fails and its diagnostic is
the one reported. -/
theorem unsupported_opcode (s : Session) (r : Registers) (d : Drive)
    (t : List (Option Byte))
    (hin : s.linkIn = frameEvents r ++ t) (hd : select_drive r = some d)
    (h2 : r.ah.val ≠ 0x02) (h3 : r.ah.val ≠ 0x03) :
    ∃ s1, dispatch s =
        .exit (if (s.fh d).isSome ∧ offsetOf s.hpc ((s.spt d).val : Int) r < 0
                then .seek else .unhandledOp) EXIT_FAILURE s1 ∧
      EXIT_FAILURE ≠ EXIT_SUCCESS ∧
      s1.linkIn = t ∧ s1.linkOut = s.linkOut ∧
      (∀ e, (s1.fh e).map FILE.data = (s.fh e).map FILE.data) := by
  rw [dispatch_frame s r t hin, hd]
  dsimp only
  cases hfh : s.fh d with
  | none =>
    have hfh1 : ({ s with linkIn := t } : Session).fh d = none := by
      rw [fh_linkIn]; exact hfh
    rw [position_absent d _ _ hfh1]
    dsimp only
    rw [transfer_other d r _ h2 h3]
    refine ⟨{ s with linkIn := t }, ?_, by decide, rfl, rfl, fun e => by rw [fh_linkIn]⟩
    rw [if_neg (by simp)]
  | some f =>
    have hfh1 : ({ s with linkIn := t } : Session).fh d = some f := by
      rw [fh_linkIn]; exact hfh
    rw [position_present d _ _ f hfh1]
    by_cases hneg : offsetOf s.hpc ((s.spt d).val : Int) r < 0
    · have hs : fseek f (offsetOf s.hpc ((s.spt d).val : Int) r) = none := by
        unfold fseek; rw [if_pos hneg]
      rw [hs]
      refine ⟨{ s with linkIn := t }, ?_, by decide, rfl, rfl, fun e => by rw [fh_linkIn]⟩
      rw [if_pos ⟨rfl, hneg⟩]
      rfl
    · have hs : fseek f (offsetOf s.hpc ((s.spt d).val : Int) r)
          = some { f with pos := (offsetOf s.hpc ((s.spt d).val : Int) r).toNat } := by
        unfold fseek; rw [if_neg hneg]
      rw [hs]
      show ∃ s1, transfer d r _ = _ ∧ _
      rw [transfer_other d r _ h2 h3]
      refine ⟨({ s with linkIn := t } : Session).setFh d
        { f with pos := (offsetOf s.hpc ((s.spt d).val : Int) r).toNat }, ?_, by decide, ?_, ?_, ?_⟩
      · rw [if_neg (fun h => hneg h.2)]
      · cases d <;> rfl
      · cases d <;> rfl
      · intro e
        by_cases he : e = d
        · subst he
          rw [setFh_fh, fh_linkIn, hfh, Option.map_some', Option.map_some']
        · rw [setFh_fh_ne _ d e _ he, fh_linkIn]

/-- Witness of C7, amended: image in drive A and the frame `01 09 01 00 00 00`,
whose offset is 0. -/
theorem unsupported_opcode_witness :
    select_drive opcodeNine = some .A ∧ opcodeNine.ah.val = 0x09 ∧
    dispatch (sessionA tinyImage 18 (frameEvents opcodeNine))
      = .exit .unhandledOp EXIT_FAILURE (sessionA tinyImage 18 []) := by
  obtain ⟨s1, h1, -, -, -, -⟩ := unsupported_opcode (sessionA tinyImage 18 (frameEvents opcodeNine))
    opcodeNine .A [] rfl (by decide) (by decide) (by decide)
  exact ⟨by decide, by decide, by decide⟩


/-! ## Present drives: the claims -/

theorem offsetOf_opcode (hpc spt : Int) (r : Registers) (ah : Byte) :
    offsetOf hpc spt { r with ah := ah } = offsetOf hpc spt r := rfl

theorem spt_congr {s s1 : Session} (d : Drive) (ha : s1.floppy_a_spt = s.floppy_a_spt)
    (hb : s1.floppy_b_spt = s.floppy_b_spt) : s1.spt d = s.spt d := by
  cases d
  · exact ha
  · exact hb

theorem fseek_nonneg (f : FILE) (offset : Int) (h : 0 ≤ offset) :
    fseek f offset = some { f with pos := offset.toNat } := by
  unfold fseek
  rw [if_neg (by omega)]

/-- The pass over a read frame for a present drive whose offset is not
negative: the read loop runs on the positioned stream. -/
theorem dispatch_read_present (s : Session) (r : Registers) (d : Drive) (f : FILE)
    (t : List (Option Byte))
    (hin : s.linkIn = frameEvents r ++ t) (hd : select_drive r = some d)
    (hfh : s.fh d = some f) (hah : r.ah.val = 0x02)
    (hoff : 0 ≤ offsetOf s.hpc ((s.spt d).val : Int) r) :
    dispatch s = .next (read_sectors d (r.al.val * 512)
      (({ s with linkIn := t } : Session).setFh d
        { f with pos := (offsetOf s.hpc ((s.spt d).val : Int) r).toNat })) := by
  have hfh1 : ({ s with linkIn := t } : Session).fh d = some f := by
    rw [fh_linkIn]; exact hfh
  rw [dispatch_frame s r t hin, hd]
  dsimp only
  rw [position_present d _ _ f hfh1, fseek_nonneg f _ hoff]
  show transfer d r _ = _
  rw [transfer_read d r _ hah]

/-- The pass over a write frame for a present drive whose offset is not
negative: the write loop runs on the positioned stream. -/
theorem dispatch_write_present (s : Session) (r : Registers) (d : Drive) (f : FILE)
    (t : List (Option Byte))
    (hin : s.linkIn = frameEvents r ++ t) (hd : select_drive r = some d)
    (hfh : s.fh d = some f) (hah : r.ah.val = 0x03)
    (hoff : 0 ≤ offsetOf s.hpc ((s.spt d).val : Int) r) :
    dispatch s = .next (write_sectors d (r.al.val * 512)
      (({ s with linkIn := t } : Session).setFh d
        { f with pos := (offsetOf s.hpc ((s.spt d).val : Int) r).toNat })) := by
  have hfh1 : ({ s with linkIn := t } : Session).fh d = some f := by
    rw [fh_linkIn]; exact hfh
  rw [dispatch_frame s r t hin, hd]
  dsimp only
  rw [position_present d _ _ f hfh1, fseek_nonneg f _ hoff]
  show transfer d r _ = _
  rw [transfer_write d r _ hah]

/-- C2: a read frame (`AH=0x02`) for a present drive whose byte offset is not
negative and whose image holds `al*512` bytes from that offset on: the pass
hands to the line exactly those image bytes, in order, all of them accepted
when no write on the line fails; the image keeps its contents, the other
drive is untouched, and the loop goes on to the next frame. -/
theorem present_read (s : Session) (r : Registers) (d : Drive) (f : FILE)
    (t : List (Option Byte))
    (hin : s.linkIn = frameEvents r ++ t) (hd : select_drive r = some d)
    (hfh : s.fh d = some f) (hah : r.ah.val = 0x02)
    (hoff : 0 ≤ offsetOf s.hpc ((s.spt d).val : Int) r)
    (hlen : (offsetOf s.hpc ((s.spt d).val : Int) r).toNat + r.al.val * 512 ≤ f.data.length) :
    ∃ s1, dispatch s = .next s1 ∧
      s1.written = s.written ++
        (f.data.drop (offsetOf s.hpc ((s.spt d).val : Int) r).toNat).take (r.al.val * 512) ∧
      ((∀ ok ∈ s.linkWr, ok = true) → s1.delivered = s.delivered ++
        (f.data.drop (offsetOf s.hpc ((s.spt d).val : Int) r).toNat).take (r.al.val * 512)) ∧
      (s1.fh d).map FILE.data = some f.data ∧
      (∀ e, e ≠ d → s1.fh e = s.fh e) ∧
      s1.linkIn = t := by
  have hstep := dispatch_read_present s r d f t hin hd hfh hah hoff
  generalize (offsetOf s.hpc ((s.spt d).val : Int) r).toNat = k at hstep hlen ⊢
  obtain ⟨h1, h2, h3, h4⟩ := read_sectors_present d (r.al.val * 512)
    (({ s with linkIn := t } : Session).setFh d { f with pos := k })
    { f with pos := k } (setFh_fh _ d _) hlen
  have hw0 : (({ s with linkIn := t } : Session).setFh d { f with pos := k }).written
      = s.written := by
    cases d <;> rfl
  have hd0 : (({ s with linkIn := t } : Session).setFh d { f with pos := k }).delivered
      = s.delivered := by
    cases d <;> rfl
  rw [hw0] at h4
  refine ⟨_, hstep, h4, ?_, ?_, ?_, ?_⟩
  · intro hw
    obtain ⟨l, hl⟩ := read_sectors_accepted d (r.al.val * 512)
      (({ s with linkIn := t } : Session).setFh d { f with pos := k })
      (by cases d <;> exact hw)
    have := delivered_of_accepted _ _ l _ hl (by rw [hw0]; exact h4)
    rw [hd0] at this
    exact this
  · rw [h2, Option.map_some']
  · intro e he
    rw [h3 e he, setFh_fh_ne _ d e _ he, fh_linkIn]
  · rw [h1]
    cases d <;> rfl

set_option maxRecDepth 100000 in
/-- Witness of C2: the end-to-end scenario.  Drive A holds a one-sector image,
18 sectors per track, two heads; the frame `01 02 01 00 00 00` gives offset 0
and the 512 bytes of the image on the line. -/
theorem present_read_witness :
    cylinderOf firstSectorRead = 0 ∧ sectorOf firstSectorRead = 1 ∧
    lbaOf 2 18 firstSectorRead = 0 ∧ offsetOf 2 18 firstSectorRead = 0 ∧
    bootImage.length = 512 ∧
    ∃ s1, dispatch (sessionA bootImage 18 (frameEvents firstSectorRead)) = .next s1 ∧
      s1.written = bootImage ∧ s1.delivered = bootImage ∧
      (s1.fh .A).map FILE.data = some bootImage := by
  obtain ⟨s1, h1, h2, h3, h4, -, -⟩ :=
    present_read (sessionA bootImage 18 (frameEvents firstSectorRead)) firstSectorRead .A
      ⟨bootImage, 0⟩ [] rfl (by decide) rfl (by decide) (by decide) (by decide)
  have e : (([] : List Byte) ++ (bootImage.drop 0).take 512) = bootImage := by
    rw [List.nil_append, List.drop_zero, List.take_of_length_le (by decide)]
  refine ⟨by decide, by decide, by decide, by decide, by decide, s1, h1, ?_, ?_, h4⟩
  · rw [h2]; exact e
  · rw [h3 (by decide)]; exact e

/-- C3: for a present drive and an address whose byte offset is not negative,
a write frame (`AH=0x03`) with its `al*512` pattern bytes, followed by the
read frame (`AH=0x02`) with the same `AL, CL, CH, DL, DH`, every read on the
line succeeding: the two passes hand the pattern back to the line byte for
byte, all of it accepted when no write on the line fails.  The image may be
of any length, shorter than the end of the write included. -/
theorem round_trip (s : Session) (w : Registers) (d : Drive) (f : FILE) (p : List Byte)
    (t : List (Option Byte))
    (hd : select_drive w = some d) (hfh : s.fh d = some f) (hah : w.ah.val = 0x03)
    (hoff : 0 ≤ offsetOf s.hpc ((s.spt d).val : Int) w)
    (hp : p.length = w.al.val * 512)
    (hin : s.linkIn
      = frameEvents w ++ (p.map some ++ (frameEvents { w with ah := 0x02 } ++ t))) :
    ∃ s1 s2, dispatch s = .next s1 ∧ dispatch s1 = .next s2 ∧
      main_loop 2 s = .next s2 ∧
      s2.written = s.written ++ p ∧
      ((∀ ok ∈ s.linkWr, ok = true) → s2.delivered = s.delivered ++ p) ∧
      s2.linkIn = t := by
  -- the write pass
  have hstep1 := dispatch_write_present s w d f _ hin hd hfh hah hoff
  rw [← hp] at hstep1
  generalize hk : (offsetOf s.hpc ((s.spt d).val : Int) w).toNat = k at hstep1
  obtain ⟨a1, a2, a3, a4, -, a5, a6, a7⟩ := write_sectors_present d p
    (({ s with linkIn := p.map some ++ (frameEvents { w with ah := 0x02 } ++ t) } : Session).setFh d
      { f with pos := k })
    { f with pos := k } (frameEvents { w with ah := 0x02 } ++ t) (setFh_fh _ d _)
    (by cases d <;> rfl)
  generalize hs1 : write_sectors d p.length
    (({ s with linkIn := p.map some ++ (frameEvents { w with ah := 0x02 } ++ t) } : Session).setFh d
      { f with pos := k }) = s1 at hstep1 a1 a2 a3 a4 a5 a6 a7
  generalize hD : (if p = [] then f.data else overwrite f.data k p) = D at a4
  have b2 : s1.linkOut = s.linkOut := by rw [a2]; cases d <;> rfl
  have b3 : s1.linkWr = s.linkWr := by rw [a3]; cases d <;> rfl
  have b5 : s1.hpc = s.hpc := by rw [a5]; cases d <;> rfl
  have b6 : s1.spt d = s.spt d := by
    apply spt_congr d
    · rw [a6]; cases d <;> rfl
    · rw [a7]; cases d <;> rfl
  -- the read pass
  have hoff2 : offsetOf s1.hpc ((s1.spt d).val : Int) { w with ah := 0x02 }
      = offsetOf s.hpc ((s.spt d).val : Int) w := by
    rw [offsetOf_opcode, b5, b6]
  have hstep2 := dispatch_read_present s1 { w with ah := 0x02 } d _ t a1 hd a4 rfl
    (by rw [hoff2]; exact hoff)
  rw [hoff2, hk] at hstep2
  have hal : ({ w with ah := 0x02 } : Registers).al.val * 512 = p.length := hp.symm
  rw [hal] at hstep2
  have hl2 := read_sectors_accepted d p.length
    (({ s1 with linkIn := t } : Session).setFh d ⟨D, k⟩)
  have hw0 : (({ s1 with linkIn := t } : Session).setFh d ⟨D, k⟩).linkOut = s.linkOut := by
    rw [← b2]; cases d <;> rfl
  have hw1 : (({ s1 with linkIn := t } : Session).setFh d ⟨D, k⟩).linkWr = s.linkWr := by
    rw [← b3]; cases d <;> rfl
  have hread : (read_sectors d p.length (({ s1 with linkIn := t } : Session).setFh d ⟨D, k⟩)).linkIn
        = t ∧
      (read_sectors d p.length (({ s1 with linkIn := t } : Session).setFh d ⟨D, k⟩)).written
        = s.written ++ p := by
    by_cases hnil : p = []
    · subst hnil
      refine ⟨?_, ?_⟩
      · cases d <;> rfl
      · show Session.written (({ s1 with linkIn := t } : Session).setFh d ⟨D, k⟩) = _
        unfold Session.written
        rw [hw0, List.append_nil]
    · rw [if_neg hnil] at hD
      obtain ⟨r1, -, -, r4⟩ := read_sectors_present d p.length
        (({ s1 with linkIn := t } : Session).setFh d ⟨D, k⟩) ⟨D, k⟩ (setFh_fh _ d _)
        (by rw [← hD]; exact overwrite_length f.data k p)
      have hr : (D.drop k).take p.length = p := by
        rw [← hD]; exact overwrite_read f.data k p
      refine ⟨?_, ?_⟩
      · rw [r1]; cases d <;> rfl
      · rw [r4]
        show _ ++ (D.drop k).take p.length = _
        rw [hr]
        unfold Session.written
        rw [hw0]
  refine ⟨s1, _, hstep1, hstep2, ?_, hread.2, ?_, hread.1⟩
  · show (match dispatch s with
        | .next s => main_loop 1 s
        | .exit e result s => .exit e result s) = _
    rw [hstep1]
    show (match dispatch s1 with
        | .next s => main_loop 0 s
        | .exit e result s => .exit e result s) = _
    rw [hstep2]
    rfl
  · intro hw
    obtain ⟨l, hl⟩ := hl2 (by rw [hw1]; exact hw)
    have hl' := hl
    rw [hw0] at hl'
    exact delivered_of_accepted s _ l p hl' hread.2

set_option maxRecDepth 100000 in
/-- Witness of C3: a three-byte image in drive A, one sector of `0xA5` written
at offset 0, past the end of the image, and read back. -/
theorem round_trip_witness :
    select_drive firstSectorWrite = some .A ∧ firstSectorWrite.ah.val = 0x03 ∧
    offsetOf 2 18 firstSectorWrite = 0 ∧ tinyImage.length = 3 ∧
    sectorPattern.length = 512 ∧
    ∃ s2, main_loop 2 (sessionA tinyImage 18 (frameEvents firstSectorWrite ++
        (sectorPattern.map some ++ (frameEvents { firstSectorWrite with ah := 0x02 } ++ []))))
        = .next s2 ∧
      s2.written = sectorPattern ∧ s2.delivered = sectorPattern ∧ s2.linkIn = [] := by
  obtain ⟨s1, s2, -, -, h3, h4, h5, h6⟩ :=
    round_trip (sessionA tinyImage 18 (frameEvents firstSectorWrite ++
        (sectorPattern.map some ++ (frameEvents { firstSectorWrite with ah := 0x02 } ++ []))))
      firstSectorWrite .A ⟨tinyImage, 0⟩ sectorPattern [] (by decide) rfl (by decide)
      (by decide) (by decide) rfl
  exact ⟨by decide, by decide, by decide, by decide, by decide, s2, h3, h4,
    h5 (by decide), h6⟩


/-! ## Geometry resolution: the claims -/

/-- C5: `get_sectors_per_track` returns 18 when the little-endian 16-bit field
at byte offset 24 is `0x0012`, 9 when it is `0x0009`, and 0 for every other
field value and for an image shorter than 26 bytes; it returns nothing but 0,
9 and 18.  With no `-S` override, a start-up that has come to the images
fails with the "Invalid sectors per track" diagnostic and a non-zero status,
before any read from the line, as soon as the image of a present drive probes
to 0; and a start-up that reaches the command loop has resolved, for each
present drive, the probed value, 9 or 18. -/
theorem geometry_probe :
    (∀ fh : FILE, (get_sectors_per_track fh).1 = 0 ∨ (get_sectors_per_track fh).1 = 9 ∨
        (get_sectors_per_track fh).1 = 18) ∧
    (∀ (data : List Byte) (pos : Nat) (lo hi : Byte),
        data.get? 24 = some lo → data.get? 25 = some hi →
        (get_sectors_per_track ⟨data, pos⟩).1 =
          if lo.val + 256 * hi.val = 0x0012 then 18
          else if lo.val + 256 * hi.val = 0x0009 then 9 else 0) ∧
    (∀ (data : List Byte) (pos : Nat), data.length < 26 →
        (get_sectors_per_track ⟨data, pos⟩).1 = 0) ∧
    (∀ (inv : Invocation) (linkIn : List (Option Byte)) (linkWr : List Bool) (fuel : Nat)
        (data : List Byte),
        inv.reachesImages → inv.spt = 0 → inv.floppy_a_image ≠ some none →
        (inv.floppy_a_image = some (some data) ∨ inv.floppy_b_image = some (some data)) →
        (get_sectors_per_track ⟨data, 0⟩).1 = 0 →
        ∃ e s1, main inv linkIn linkWr fuel = .exit e EXIT_FAILURE s1 ∧
          e.kind = .InvalidGeometry ∧ EXIT_FAILURE ≠ EXIT_SUCCESS ∧
          s1.linkIn = linkIn ∧ s1.linkOut = []) ∧
    (∀ (inv : Invocation) (linkIn : List (Option Byte)) (linkWr : List Bool) (s : Session),
        startup inv linkIn linkWr = .next s → inv.spt = 0 →
        (∀ data, inv.floppy_a_image = some (some data) →
          s.floppy_a_spt = (get_sectors_per_track ⟨data, 0⟩).1 ∧
          (s.floppy_a_spt = 9 ∨ s.floppy_a_spt = 18)) ∧
        (∀ data, inv.floppy_b_image = some (some data) →
          s.floppy_b_spt = (get_sectors_per_track ⟨data, 0⟩).1 ∧
          (s.floppy_b_spt = 9 ∨ s.floppy_b_spt = 18))) := by
  refine ⟨get_sectors_per_track_values, get_sectors_per_track_field,
    get_sectors_per_track_short, ?_, ?_⟩
  · intro inv linkIn linkWr fuel data hr hs ha hdata h0
    obtain ⟨e, s1, h1, h2, h3, h4⟩ :=
      startup_probe_failure inv linkIn linkWr data hr hs ha hdata h0
    exact ⟨e, s1, main_of_startup_exit inv linkIn linkWr fuel e _ s1 h1, h2, by decide, h3, h4⟩
  · intro inv linkIn linkWr s h hs
    obtain ⟨-, -, -, -, -, -, ra, rb⟩ := startup_resolved inv linkIn linkWr s h
    rw [hs] at ra rb
    constructor
    · intro data hd
      obtain ⟨c1, -, c3⟩ := ra data hd
      rw [resolve_spt_probe] at c1
      refine ⟨c1, ?_⟩
      rcases get_sectors_per_track_values ⟨data, 0⟩ with h | h | h
      · exact absurd (c1.trans h) c3
      · exact Or.inl (c1.trans h)
      · exact Or.inr (c1.trans h)
    · intro data hd
      obtain ⟨c1, -, c3⟩ := rb data hd
      rw [resolve_spt_probe] at c1
      refine ⟨c1, ?_⟩
      rcases get_sectors_per_track_values ⟨data, 0⟩ with h | h | h
      · exact absurd (c1.trans h) c3
      · exact Or.inl (c1.trans h)
      · exact Or.inr (c1.trans h)

set_option maxRecDepth 100000 in
/-- Witness of C5: `-a IMAGE` with no `-S`.  A three-byte image probes to 0
and start-up fails; an image with `12 00` at offset 24 probes to 18. -/
theorem geometry_probe_witness :
    (invocationA tinyImage 0).reachesImages ∧
    (get_sectors_per_track ⟨tinyImage, 0⟩).1 = 0 ∧
    (∃ e s1, main (invocationA tinyImage 0) (frameEvents firstSectorRead) [] 1
        = .exit e EXIT_FAILURE s1 ∧ e.kind = .InvalidGeometry ∧
        s1.linkIn = frameEvents firstSectorRead) ∧
    bootImage.get? 24 = some 0x12 ∧ bootImage.get? 25 = some 0x00 ∧
    (get_sectors_per_track ⟨bootImage, 0⟩).1 = 18 := by
  obtain ⟨e, s1, h1, h2, -, h4, -⟩ := geometry_probe.2.2.2.1 (invocationA tinyImage 0)
    (frameEvents firstSectorRead) [] 1 tinyImage (by decide) rfl (by decide) (Or.inl rfl)
    (by decide)
  have h18 := geometry_probe.2.1 bootImage 0 0x12 0x00 (by decide) (by decide)
  exact ⟨by decide, by decide, ⟨e, s1, h1, h2, h4⟩, by decide, by decide, h18⟩

/-- C8, refuted as stated: `-S 65536` on an image whose boot sector announces
18 sectors per track.  The `int` 65536 stored in the `uint16_t` is 0, and
start-up fails with the "Invalid sectors per track" diagnostic.  Likewise
`-S 65538` resolves to 2. -/
theorem spt_override_truncated :
    (0 : Int) < 65536 ∧ (get_sectors_per_track ⟨bootImage, 0⟩).1 = 18 ∧
    startup (invocationA bootImage 65536) [] []
      = .exit .invalidSptA EXIT_FAILURE (sessionA bootImage 0 []) ∧
    Fatal.invalidSptA.kind = .InvalidGeometry ∧
    startup (invocationA tinyImage 65538) [] [] = .next (sessionA tinyImage 2 []) := by
  refine ⟨by decide, by decide, ?_, by decide, by decide⟩
  rw [startup_images _ _ _ (by decide), open_a_some _ _ bootImage rfl,
    resolve_spt_override _ _ (by decide), if_pos (by decide)]
  rfl

/-- C8, amended: for every `-S` value `v` with `1 ≤ v ≤ 65535`, start-up never
ends in the "Invalid sectors per track" diagnostic, and reaches the command
loop whenever it has come to the images and every named image opens; each
present drive then has sectors-per-track `v`, whatever its image holds, with
the image left at position 0, and a pass over a frame for that drive seeks
to the offset computed with `v`. -/
theorem spt_override (inv : Invocation) (linkIn : List (Option Byte))
    (linkWr : List Bool) (hv1 : 1 ≤ inv.spt) (hv2 : inv.spt ≤ 65535) :
    (∀ e result s1, startup inv linkIn linkWr = .exit e result s1 →
      e.kind ≠ .InvalidGeometry) ∧
    (inv.reachesImages → inv.floppy_a_image ≠ some none → inv.floppy_b_image ≠ some none →
      ∃ s, startup inv linkIn linkWr = .next s) ∧
    (∀ s, startup inv linkIn linkWr = .next s →
      (∀ data, inv.floppy_a_image = some (some data) →
        ((s.floppy_a_spt.val : Nat) : Int) = inv.spt ∧ s.floppy_a_fh = some ⟨data, 0⟩) ∧
      (∀ data, inv.floppy_b_image = some (some data) →
        ((s.floppy_b_spt.val : Nat) : Int) = inv.spt ∧ s.floppy_b_fh = some ⟨data, 0⟩) ∧
      (∀ (r : Registers) (t : List (Option Byte)) (d : Drive) (f : FILE),
        s.linkIn = frameEvents r ++ t → select_drive r = some d → s.fh d = some f →
        dispatch s =
          match fseek f (offsetOf inv.hpc inv.spt r) with
          | none => .exit .seek EXIT_FAILURE { s with linkIn := t }
          | some f1 => transfer d r (({ s with linkIn := t } : Session).setFh d f1))) := by
  have hne : inv.spt ≠ 0 := by omega
  have hres : ∀ fh, resolve_spt inv.spt fh = (toWord inv.spt, fh) :=
    fun fh => resolve_spt_override inv.spt fh hne
  have hv : ∀ fh, (resolve_spt inv.spt fh).1 ≠ 0 := by
    intro fh
    rw [hres]
    exact toWord_ne_zero inv.spt hv1 hv2
  have hval : ((toWord inv.spt).val : Int) = inv.spt := toWord_val inv.spt (by omega) hv2
  refine ⟨?_, ?_, ?_⟩
  · intro e result s1 h
    exact startup_exit_kind inv linkIn linkWr e result s1 h hv
  · intro hr ha hb
    exact startup_succeeds inv linkIn linkWr hr ha hb (fun _ _ => hv _) (fun _ _ => hv _)
  · intro s h
    obtain ⟨r1, -, na, nb, ea, eb, ra, rb⟩ := startup_resolved inv linkIn linkWr s h
    have hA : ∀ data, inv.floppy_a_image = some (some data) →
        ((s.floppy_a_spt.val : Nat) : Int) = inv.spt ∧ s.floppy_a_fh = some ⟨data, 0⟩ := by
      intro data hd
      obtain ⟨c1, c2, -⟩ := ra data hd
      rw [hres] at c1 c2
      exact ⟨by rw [c1]; exact hval, c2⟩
    have hB : ∀ data, inv.floppy_b_image = some (some data) →
        ((s.floppy_b_spt.val : Nat) : Int) = inv.spt ∧ s.floppy_b_fh = some ⟨data, 0⟩ := by
      intro data hd
      obtain ⟨c1, c2, -⟩ := rb data hd
      rw [hres] at c1 c2
      exact ⟨by rw [c1]; exact hval, c2⟩
    refine ⟨hA, hB, ?_⟩
    intro r t d f hin hd hfh
    have hspt : (((s.spt d).val : Nat) : Int) = inv.spt := by
      cases d with
      | A =>
        cases hi : inv.floppy_a_image with
        | none =>
          have : s.floppy_a_fh = none := ea hi
          rw [show s.fh .A = s.floppy_a_fh from rfl, this] at hfh
          exact absurd hfh (by simp)
        | some oa =>
          cases oa with
          | none => exact absurd hi na
          | some dA => exact (hA dA hi).1
      | B =>
        cases hi : inv.floppy_b_image with
        | none =>
          have : s.floppy_b_fh = none := eb hi
          rw [show s.fh .B = s.floppy_b_fh from rfl, this] at hfh
          exact absurd hfh (by simp)
        | some ob =>
          cases ob with
          | none => exact absurd hi nb
          | some dB => exact (hB dB hi).1
    have hfh1 : ({ s with linkIn := t } : Session).fh d = some f := by
      rw [fh_linkIn]; exact hfh
    rw [dispatch_frame s r t hin, hd]
    dsimp only
    rw [position_present d _ _ f hfh1, hspt, r1]
    cases fseek f (offsetOf inv.hpc inv.spt r) <;> rfl

/-- Witness of C8, amended: `-a IMAGE -S 36` on an image whose boot sector
announces 18 sectors per track. -/
theorem spt_override_witness :
    (1 : Int) ≤ (invocationA bootImage 36).spt ∧ (invocationA bootImage 36).spt ≤ 65535 ∧
    (get_sectors_per_track ⟨bootImage, 0⟩).1 = 18 ∧
    ∃ s, startup (invocationA bootImage 36) [] [] = .next s ∧
      ((s.floppy_a_spt.val : Nat) : Int) = 36 ∧ s.floppy_a_fh = some ⟨bootImage, 0⟩ := by
  have h := spt_override (invocationA bootImage 36) [] [] (by decide) (by decide)
  obtain ⟨s, hs⟩ := h.2.1 (by decide) (by decide) (by decide)
  obtain ⟨h1, h2⟩ := (h.2.2 s hs).1 bootImage rfl
  exact ⟨by decide, by decide, by decide, s, hs, h1, h2⟩


/-! ## Failures of the line during a transfer -/

theorem write_sectors_succ (d : Drive) (n : Nat) (s : Session) :
    write_sectors d (n + 1) s = write_sectors d n (write_body d s) := rfl

theorem read_sectors_succ (d : Drive) (n : Nat) (s : Session) :
    read_sectors d (n + 1) s = read_sectors d n (read_body d s) := rfl

theorem write_body_failed (d : Drive) (s : Session) (f : FILE) (t : List (Option Byte))
    (h : s.fh d = some f) (hin : s.linkIn = none :: t) :
    write_body d s = ({ s with linkIn := t } : Session).setFh d (fputc s.c f) := by
  unfold write_body tty_read
  rw [hin]
  dsimp only
  have h1 : ({ s with linkIn := t } : Session).fh d = some f := by
    rw [fh_linkIn]; exact h
  rw [h1]

theorem read_sectors_linkOut (d : Drive) (n : Nat) (s : Session) :
    ∃ l, (read_sectors d n s).linkOut = s.linkOut ++ l := by
  induction n generalizing s with
  | zero => exact ⟨[], by simp [read_sectors]⟩
  | succ n ih =>
    obtain ⟨s0, hb, -, h2⟩ := read_body_link d s
    obtain ⟨l, hl⟩ := ih (read_body d s)
    have hw : ∃ e, (tty_write s0).linkOut = s0.linkOut ++ [e] := by
      unfold tty_write
      cases s0.linkWr with
      | nil => exact ⟨_, rfl⟩
      | cons ok rest => exact ⟨_, rfl⟩
    obtain ⟨e, he⟩ := hw
    refine ⟨e :: l, ?_⟩
    rw [read_sectors_succ, hl, hb, he, h2]
    simp

set_option maxRecDepth 100000 in
/-- C6, evaluated where it fails.  A one-sector write to a three-byte image
whose first data read fails (`sessionFailsInWrite`): the pass does not end the
session; it stores the stale byte `0xFF` of `c` over byte 0 of the image, then
the 511 bytes that follow, and leaves the next frame to the next pass.  A
one-sector read whose first `write` fails (`sessionFailsInRead`): the pass
hands all 512 bytes to the line, the first one refused, and returns to the
frame loop.  A failed read inside a frame, by contrast, ends the session. -/
theorem link_failure_ignored :
    (dispatch sessionFailsInWrite = .next (write_sectors .A 511 afterFailedRead) ∧
      (write_sectors .A 511 afterFailedRead).linkIn = frameEvents firstSectorRead ∧
      (write_sectors .A 511 afterFailedRead).fh .A
        = some ⟨0xFF :: List.replicate 511 0xA5, 512⟩) ∧
    (dispatch sessionFailsInRead = .next (read_sectors .A 511 afterFailedWrite) ∧
      (read_sectors .A 511 afterFailedWrite).linkIn = frameEvents firstSectorRead ∧
      (read_sectors .A 511 afterFailedWrite).written = bootImage ∧
      (read_sectors .A 511 afterFailedWrite).delivered = bootImage.drop 1) ∧
    dispatch (sessionA tinyImage 18 [some 1, some 3, none, some 0, some 0, some 0])
      = .exit .linkRead EXIT_FAILURE (sessionA tinyImage 18 [some 0, some 0, some 0]) := by
  refine ⟨⟨?_, ?_, ?_⟩, ⟨?_, ?_, ?_, ?_⟩, by decide⟩
  · have h := dispatch_write_present sessionFailsInWrite firstSectorWrite .A ⟨tinyImage, 0⟩
      (none :: (List.replicate 511 0xA5).map some ++ frameEvents firstSectorRead)
      rfl (by decide) rfl (by decide) (by decide)
    rw [h]
    rfl
  · have h := write_sectors_present .A (List.replicate 511 0xA5) afterFailedRead
      ⟨[0xFF, 0x3C, 0x90], 1⟩ (frameEvents firstSectorRead) rfl rfl
    rw [List.length_replicate] at h
    exact h.1
  · have h := write_sectors_present .A (List.replicate 511 0xA5) afterFailedRead
      ⟨[0xFF, 0x3C, 0x90], 1⟩ (frameEvents firstSectorRead) rfl rfl
    rw [List.length_replicate] at h
    rw [h.2.2.2.1, if_neg (by decide)]
    decide
  · have h := dispatch_read_present sessionFailsInRead firstSectorRead .A ⟨bootImage, 0⟩
      (frameEvents firstSectorRead) rfl (by decide) rfl (by decide) (by decide)
    rw [h]
    rfl
  · exact (read_sectors_present .A 511 afterFailedWrite ⟨bootImage, 1⟩ rfl (by decide)).1
  · rw [(read_sectors_present .A 511 afterFailedWrite ⟨bootImage, 1⟩ rfl (by decide)).2.2.2]
    decide
  · obtain ⟨l, hl⟩ := read_sectors_accepted .A 511 afterFailedWrite (by decide)
    have hw := (read_sectors_present .A 511 afterFailedWrite ⟨bootImage, 1⟩ rfl
      (by decide)).2.2.2
    rw [delivered_of_accepted afterFailedWrite _ l _ hl hw]
    decide

end Serialfd
